import Mathlib

/-!
Verification of the poyuta quiz bot's answer-matching pipeline
(`src/poyuta/utils.py`) and quiz lifecycle (`src/poyuta/main.py`).

The Python code builds regular-expression strings and evaluates them with the
standard library's `re.search`.  We embed the string-building functions
faithfully as functions on `String` / `List Char`, and model the external
`re` library by a small regex abstract syntax tree `RE`, a parser from
pattern strings to `RE`, and a span-matching semantics `Mat`.
-/

namespace Poyuta

/-- Abstract syntax of the regex fragment produced by the pipeline:
literals, character classes (lists of inclusive ranges), dot, concatenation,
alternation, star, optional, and the `^` / `$` anchors. -/
inductive RE where
  | eps : RE
  | bol : RE
  | eol : RE
  | dot : RE
  | lit : Char → RE
  | cls : List (Char × Char) → RE
  | cat : RE → RE → RE
  | alt : RE → RE → RE
  | star : RE → RE
  | opt : RE → RE
deriving DecidableEq, Repr

/-- Read one literal character inside a character class. Models Python `re`
class items: a backslash escapes the next character; a bare `]` ends the
class (so it is not a class character); a dangling backslash is an error. -/
def clsChar : List Char → Option (Char × List Char)
  | [] => none
  | c :: rest =>
    if c = ']' then none
    else if c = '\\' then
      match rest with
      | [] => none
      | d :: rest2 => some (d, rest2)
    else some (c, rest)

/-- Parse the body of a character class `[...]` (after the opening bracket),
accumulating inclusive ranges; `a-b` is a range, a trailing `-` before `]`
is a literal dash, everything else is a singleton range. -/
def parseCls : Nat → List Char → List (Char × Char) → Option (RE × List Char)
  | 0, _, _ => none
  | fuel+1, inp, acc =>
    match inp with
    | [] => none
    | c :: _ =>
      if c = ']' then some (.cls acc.reverse, inp.tail)
      else
        match clsChar inp with
        | none => none
        | some (a, r1) =>
          if r1.head? = some '-' then
            if r1.tail.head? = some ']' then
              some (.cls (List.reverse (('-', '-') :: (a, a) :: acc)), r1.tail.tail)
            else
              match clsChar r1.tail with
              | none => none
              | some (b, r3) => parseCls fuel r3 ((a, b) :: acc)
          else parseCls fuel r1 ((a, a) :: acc)

/-- Replace the terminal `eps` of a right-nested `cat` chain (the shape
`parseSeq` produces) by a second regex; used to describe how `parseSeq`
behaves on an appended input. -/
def seqCat : RE → RE → RE
  | .eps, x => x
  | .cat a b, x => .cat a (seqCat b x)
  | r, x => .cat r x

/-- Attach a `*` or `?` quantifier to the atom just parsed, if one follows. -/
def quantStep (r : RE) (rest : List Char) : RE × List Char :=
  match rest with
  | d :: r2 =>
    if d = '*' then (.star r, r2)
    else if d = '?' then (.opt r, r2)
    else (r, rest)
  | [] => (r, rest)

mutual

/-- Parse an alternation: a sequence, optionally followed by `|` and another
alternation. -/
def parseAlt : Nat → List Char → Option (RE × List Char)
  | 0, _ => none
  | fuel+1, inp =>
    match parseSeq fuel inp with
    | none => none
    | some (r, rest) =>
      match rest with
      | c :: rest2 =>
        if c = '|' then
          match parseAlt fuel rest2 with
          | none => none
          | some (r2, rest3) => some (.alt r r2, rest3)
        else some (r, rest)
      | [] => some (r, [])

/-- Parse a sequence of quantified atoms, stopping at `)", `|` or the end. -/
def parseSeq : Nat → List Char → Option (RE × List Char)
  | 0, _ => none
  | fuel+1, inp =>
    match inp with
    | [] => some (.eps, [])
    | c :: _ =>
      if c = ')' ∨ c = '|' then some (.eps, inp)
      else
        match parseAtom fuel inp with
        | none => none
        | some (r1, rest1) =>
          match parseSeq fuel (quantStep r1 rest1).2 with
          | none => none
          | some (r2, rest2) => some (.cat (quantStep r1 rest1).1 r2, rest2)

/-- Parse one atom: a group, a class, an escaped literal, `.`, `^`, `$`, or a
plain literal character.  Bare quantifiers and stray `)` are errors. -/
def parseAtom : Nat → List Char → Option (RE × List Char)
  | 0, _ => none
  | fuel+1, inp =>
    match inp with
    | [] => none
    | c :: rest =>
      if c = '(' then
        match parseAlt fuel rest with
        | none => none
        | some (r, rest2) =>
          match rest2 with
          | [] => none
          | d :: rest3 => if d = ')' then some (r, rest3) else none
      else if c = '[' then parseCls fuel rest []
      else if c = '\\' then
        match rest with
        | [] => none
        | d :: rest2 => some (.lit d, rest2)
      else if c = '.' then some (.dot, rest)
      else if c = '^' then some (.bol, rest)
      else if c = '$' then some (.eol, rest)
      else if c = '*' ∨ c = '?' ∨ c = '+' ∨ c = ')' ∨ c = '|' then none
      else some (.lit c, rest)

end

/-- Parse a complete pattern string: the whole input must be consumed. -/
def parseFull (p : String) : Option RE :=
  match parseAlt (3 * p.data.length + 3) p.data with
  | some (r, []) => some r
  | _ => none

/-- Membership of a character in a class given as inclusive ranges. -/
def inClass (items : List (Char × Char)) (c : Char) : Prop :=
  ∃ p ∈ items, p.1 ≤ c ∧ c ≤ p.2

/-- Span semantics of the regex fragment: `Mat s r i j` says the pattern `r`
matches the span `[i, j)` of the character list `s`.  `^` matches the empty
span at position 0, `$` the empty span at the end, mirroring Python `re`
without the MULTILINE flag. -/
inductive Mat (s : List Char) : RE → Nat → Nat → Prop where
  | eps {i} : Mat s .eps i i
  | bol : Mat s .bol 0 0
  | eol : Mat s .eol s.length s.length
  | dot {i c} : s.get? i = some c → Mat s .dot i (i + 1)
  | lit {i c} : s.get? i = some c → Mat s (.lit c) i (i + 1)
  | cls {i c items} : s.get? i = some c → inClass items c → Mat s (.cls items) i (i + 1)
  | cat {a b i k j} : Mat s a i k → Mat s b k j → Mat s (.cat a b) i j
  | altL {a b i j} : Mat s a i j → Mat s (.alt a b) i j
  | altR {a b i j} : Mat s b i j → Mat s (.alt a b) i j
  | starZ {a i} : Mat s (.star a) i i
  | starS {a i k j} : Mat s a i k → Mat s (.star a) k j → Mat s (.star a) i j
  | optN {a i} : Mat s (.opt a) i i
  | optS {a i j} : Mat s a i j → Mat s (.opt a) i j

/-- Model of Python's `re.search(pat, s)`: the pattern string parses, and some
span of `s` matches it. -/
def SearchStr (pat s : String) : Prop :=
  ∃ r, parseFull pat = some r ∧ ∃ i j, Mat s.data r i j

/-! ## The string pipeline of `src/poyuta/utils.py` -/

/-- Characters escaped by Python's `re.escape` (the special-character table of
the `re` module): parentheses, brackets, braces, quantifier and alternation
symbols, anchors, backslash, dot, ampersand, tilde, hash, space, and the
ASCII whitespace control characters. -/
def reSpecial (c : Char) : Bool :=
  c == '(' || c == ')' || c == '[' || c == ']' || c == '{' || c == '}' || c == '?' ||
  c == '*' || c == '+' || c == '-' || c == '|' || c == '^' || c == '$' || c == '\\' ||
  c == '.' || c == '&' || c == '~' || c == '#' || c == ' ' || c == '\t' || c == '\n' ||
  c == '\r' || c == '\x0b' || c == '\x0c'

/-- Concatenate the images of a character-to-fragment function over a list. -/
def escMap (f : Char → List Char) : List Char → List Char
  | [] => []
  | c :: t => f c ++ escMap f t

/-- Model of Python's `re.escape`: prefix every special character with a
backslash, leave every other character unchanged. -/
def reEscape (l : List Char) : List Char :=
  escMap (fun c => if reSpecial c then ['\\', c] else [c]) l

/-- Model of Python's `str.replace` for a two-character pattern replaced by a
single character: leftmost, non-overlapping. -/
def replace2 (p1 p2 r : Char) : List Char → List Char
  | [] => []
  | [c] => [c]
  | c1 :: c2 :: rest =>
    if c1 = p1 ∧ c2 = p2 then r :: replace2 p1 p2 r rest
    else c1 :: replace2 p1 p2 r (c2 :: rest)

/-- Embeds `escape_and_replace` (utils.py lines 86-103): `re.escape` the
input, then restore the escaped space to a bare space and the escaped star
to a bare star. -/
def escape_and_replace (input_str : String) : String :=
  ⟨replace2 '\\' '*' '*' (replace2 '\\' ' ' ' ' (reEscape input_str.data))⟩

/-- Character-wise description of the first restoration step: after escaping,
a space is restored to a bare space; every other special character keeps its
backslash. -/
def esc1 (c : Char) : List Char :=
  if c = ' ' then [' '] else if reSpecial c then ['\\', c] else [c]

/-- Character-wise description of the full escaping step of the compiler:
every special character is escaped with a backslash, except that a space and
a star are restored to their raw, unescaped form. -/
def escChar (c : Char) : List Char :=
  if c = ' ' then [' ']
  else if c = '*' then ['*']
  else if reSpecial c then ['\\', c]
  else [c]

/-- Model of Python's `str.lower` restricted to the characters relevant to the
rule table: ASCII letters plus the uppercase letters that occur in
`ANIME_REGEX_REPLACE_RULES` replacement fragments. -/
def pyLowerChar (c : Char) : Char :=
  if c = 'Ļ' then 'ļ' else if c = 'Ź' then 'ź' else if c = 'É' then 'é' else c.toLower

/-- Lower-case a string character by character. -/
def pyLower (s : String) : String :=
  ⟨s.data.map pyLowerChar⟩

/-- Case-insensitive character comparison, modelling `re.IGNORECASE` matching
of a literal pattern character. -/
def ciMatch (p c : Char) : Bool :=
  pyLowerChar p == pyLowerChar c

/-- Case-insensitive prefix test for the remaining pattern characters. -/
def ciStartsWith : List Char → List Char → Bool
  | [], _ => true
  | _ :: _, [] => false
  | p :: ps, c :: cs => ciMatch p c && ciStartsWith ps cs

/-- Model of `re.sub` with an escaped literal pattern and `re.IGNORECASE`:
replace every (leftmost, non-overlapping) case-insensitive occurrence of
`p0 :: ps` by `repl`.  The fuel argument only serves structural recursion;
every occurrence consumes at least one character, so any fuel of at least
the list's length gives the replacement of the whole list. -/
def ciReplaceAll : Nat → Char → List Char → List Char → List Char → List Char
  | 0, _, _, _, s => s
  | _ + 1, _, _, _, [] => []
  | fuel + 1, p0, ps, repl, c :: cs =>
    if ciMatch p0 c && ciStartsWith ps cs then
      repl ++ ciReplaceAll fuel p0 ps repl (cs.drop ps.length)
    else c :: ciReplaceAll fuel p0 ps repl cs

/-- The replacement rule table `ANIME_REGEX_REPLACE_RULES` of utils.py
(lines 23-60), transcribed verbatim and in order. -/
def ANIME_REGEX_REPLACE_RULES : List (String × String) :=
  [ ("ļ", "[ļĻ]"),
    ("l", "[l˥ļĻΛ]"),
    ("ź", "[źŹ]"),
    ("z", "[zźŹ]"),
    ("ou", "(ou|ō|o)"),
    ("oo", "(oo|ō|o)"),
    ("oh", "(oh|ō|o)"),
    ("wo", "(wo|o)"),
    ("o", "([oōóòöôøӨΦο]|ou|oo|oh|wo)"),
    ("uu", "(uu|u|ū)"),
    ("u", "([uūûúùüǖμ]|uu)"),
    ("aa", "(aa|a)"),
    ("ae", "(ae|æ)"),
    ("a", "([aäãά@âàáạåæā∀Λ]|aa)"),
    ("c", "[cςč℃Ↄ]"),
    ("é", "[éÉ]"),
    ("e", "[eəéÉêёëèæē]"),
    ("\x27", "[\x27’ˈ]"),
    ("n", "[nñ]"),
    ("0", "[0Ө]"),
    ("2", "[2²]"),
    ("3", "[3³]"),
    ("5", "[5⁵]"),
    ("*", "[*✻＊✳︎]"),
    (" ", "( ?[²³⁵★☆♥♡\\/\\*✻✳︎＊\x27ˈ-∽~〜・·\\.,;:!?@_-⇔→≒=\\+†×±◎Ө♪♩♣␣∞] ?| )"),
    ("i", "([iíίɪ]|ii)"),
    ("x", "[x×]"),
    ("b", "[bßβ]"),
    ("r", "[rЯ]"),
    ("s", "[sς]") ]

/-- Apply a single rule of the table to the working string. -/
def applyRule (s : List Char) (rule : String × String) : List Char :=
  match rule.1.data with
  | [] => s
  | p :: ps => ciReplaceAll s.length p ps rule.2.data s

/-- Embeds `apply_regex_rules` (utils.py lines 106-124): apply every rule of
the table, in order, to the progressively rewritten string. -/
def apply_regex_rules (s : String) : String :=
  ⟨ANIME_REGEX_REPLACE_RULES.foldl applyRule s.data⟩

/-- Embeds `generate_regex_pattern` (utils.py lines 127-154): lower-case,
escape, rewrite through the rules, and wrap for a partial or full match. -/
def generate_regex_pattern (input_str : String) (partialMatch : Bool) : String :=
  let escaped := escape_and_replace (pyLower input_str)
  let out := apply_regex_rules escaped
  if partialMatch then ".*" ++ out ++ ".*" else "^" ++ out ++ "$"

/-- Model of Python's `str.split(" ")`: split on every single space character,
keeping empty fields. -/
def splitSp : List Char → List (List Char)
  | [] => [[]]
  | c :: rest =>
    if c = ' ' then [] :: splitSp rest
    else
      match splitSp rest with
      | g :: gs => (c :: g) :: gs
      | [] => [[c]]

/-- Model of Python's `" ".join`. -/
def joinSp : List (List Char) → List Char
  | [] => []
  | [g] => g
  | g :: gs => g ++ ' ' :: joinSp gs

/-- The token-reversed input built by `process_user_input`:
join the reversed list of space-separated fields with single spaces. -/
def swappedInput (s : String) : String :=
  ⟨joinSp (splitSp s.data).reverse⟩

/-- Embeds `process_user_input` (utils.py lines 157-195): compile the input;
if word swapping is enabled and the input splits into exactly two fields,
also compile the token-reversed input and combine the two patterns with an
alternation. -/
def process_user_input (input_str : String) (partialMatch swapWords : Bool) : String :=
  let output := generate_regex_pattern input_str partialMatch
  if ¬swapWords ∨ (splitSp input_str.data).length ≠ 2 then output
  else
    "(" ++ output ++ ")|(" ++
      generate_regex_pattern (swappedInput input_str) partialMatch ++ ")"

/-! ## The quiz lifecycle of `src/poyuta/main.py`

Dates and timestamps are modelled as integers (days, respectively seconds).
The ORM entities of `poyuta/database.py` are not in the sources; their
fields are modelled from the spec's data model (section 3) and from how
`main.py` uses them. -/

/-- Modelled from the spec: a QuizInstance row (category, scheduled date,
clip reference, canonical answer text, creator), as used by `main.py`. -/
structure Quiz where
  id : Nat
  creator_id : Nat
  clip : String
  answer : String
  id_type : Nat
  date : Int
deriving DecidableEq, Repr

/-- Modelled from the spec: a user row with external identity, display name
and admin flag. -/
structure User where
  id : Nat
  name : String
  is_admin : Bool
deriving DecidableEq, Repr

/-- Modelled from the spec: an AnswerAttempt row (user, quiz instance, raw
guess text, elapsed time since the view event, correctness verdict). -/
structure Answer where
  user_id : Nat
  quiz_id : Nat
  answer : String
  answer_time : Int
  is_correct : Bool
deriving DecidableEq, Repr

/-- Modelled from the spec: a ViewEvent row (user, quiz instance, timestamp
of the moment the user clicked the play button). -/
structure UserStartQuizTimestamp where
  user_id : Nat
  quiz_id : Nat
  timestamp : Int
deriving DecidableEq, Repr

/-- The database state visible to the lifecycle commands. -/
structure DBState where
  quizzes : List Quiz
  users : List User
  answers : List Answer
  startTimestamps : List UserStartQuizTimestamp
  nextQuizId : Nat
deriving DecidableEq, Repr

/-- The `session.query(Quiz).filter(Quiz.id_type == t, Quiz.date == d).first()`
lookup used by `anwswer_quiz`, `update_quiz` and the play button. -/
def findQuiz (st : DBState) (idType : Nat) (d : Int) : Option Quiz :=
  (st.quizzes.filter (fun q => q.id_type == idType && q.date == d)).head?

/-- Embeds `get_user_from_id` (utils.py lines 355-393) with
`add_if_not_exist=True` and a caller-supplied display name: fetch the user
row, creating and committing it when absent. -/
def get_user_from_id (st : DBState) (uid : Nat) (uname : String) : DBState × User :=
  match (st.users.filter (fun u => u.id == uid)).head? with
  | some u => (st, u)
  | none =>
    ({ st with users := st.users ++ [⟨uid, uname, false⟩] }, ⟨uid, uname, false⟩)

/-- The answers of one user across all quizzes (the ORM relationship
`user.answers` iterated by `anwswer_quiz`). -/
def userAnswers (st : DBState) (uid : Nat) : List Answer :=
  st.answers.filter (fun a => a.user_id == uid)

/-- Outcome of the `/answerquiz` command.  `noQuizMsgThenAttrError` models the
path where `quiz` is `None`: the command sends the "no quiz today" message
but, lacking a `return`, continues and raises `AttributeError` dereferencing
`quiz.id`.  `shadowedGuessAttrError` models the path where the user already
has recorded answers: the loop variable of `for answer in user.answers`
shadows the `answer` parameter, so `process_user_input` is called on an
`Answer` object and raises `AttributeError` in `input_str.lower()`. -/
inductive SubmitOutcome where
  | noQuizMsgThenAttrError
  | alreadyAnsweredCorrectly
  | notStartedYet
  | shadowedGuessAttrError
  | correctFeedback
  | incorrectFeedback
deriving DecidableEq, Repr

/-- Embeds `anwswer_quiz` (main.py lines 284-383).  `reSearch` abstracts the
external `re.search`; the command compiles the submitted text with
`process_user_input(..., partial_match=False, swap_words=True)` and matches
it against the quiz's canonical answer.  Exceptions raised mid-command are
modelled as outcomes; nothing is committed after the raise point, so the
returned state is the state as of the raise. -/
def anwswer_quiz (reSearch : String → String → Bool) (st : DBState)
    (uid : Nat) (uname : String) (quizTypeV : Nat) (answer : String)
    (nowTs : Int) (currentQuizDate : Int) : SubmitOutcome × DBState :=
  match findQuiz st quizTypeV currentQuizDate with
  | none => (.noQuizMsgThenAttrError, (get_user_from_id st uid uname).1)
  | some quiz =>
    let st1 := (get_user_from_id st uid uname).1
    let priors := userAnswers st1 uid
    if priors.any (fun a => a.quiz_id == quiz.id && a.is_correct) then
      (.alreadyAnsweredCorrectly, st1)
    else
      match (st1.startTimestamps.filter
          (fun t => t.user_id == uid && t.quiz_id == quiz.id)).head? with
      | none => (.notStartedYet, st1)
      | some ts =>
        if priors.isEmpty then
          let answerTime := nowTs - ts.timestamp
          if reSearch (process_user_input answer false true) quiz.answer then
            (.correctFeedback,
              { st1 with answers := st1.answers ++ [⟨uid, quiz.id, answer, answerTime, true⟩] })
          else
            (.incorrectFeedback,
              { st1 with answers := st1.answers ++ [⟨uid, quiz.id, answer, answerTime, false⟩] })
        else (.shadowedGuessAttrError, st1)

/-- Outcome of clicking the play button. -/
inductive ViewOutcome where
  | noQuizMsg
  | clipSent
deriving DecidableEq, Repr

/-- Embeds `NewQuizButton.callback` (main.py lines 527-569): look up the quiz
for the button's type and date; if present, ensure the user exists and record
the click timestamp unless one already exists for this user and quiz, then
send the clip. -/
def newQuizButtonCallback (st : DBState) (uid : Nat) (uname : String)
    (quizTypeId : Nat) (quizDate : Int) (nowTs : Int) : ViewOutcome × DBState :=
  match findQuiz st quizTypeId quizDate with
  | none => (.noQuizMsg, st)
  | some quiz =>
    let st1 := (get_user_from_id st uid uname).1
    if (st1.startTimestamps.filter (fun t => t.quiz_id == quiz.id)).any
        (fun t => t.user_id == uid) then
      (.clipSent, st1)
    else
      (.clipSent, { st1 with startTimestamps := st1.startTimestamps ++ [⟨uid, quiz.id, nowTs⟩] })

/-- Embeds `is_admin` (utils.py lines 198-220): query the admin users and
test membership of the caller's id. -/
def is_admin (st : DBState) (uid : Nat) : Bool :=
  (st.users.filter (fun u => u.is_admin)).any (fun u => u.id == uid)

/-- The `session.query(Quiz).filter(Quiz.id_type == t).order_by(Quiz.date.desc()).first()`
lookup of `new_quiz`: a quiz of the category with maximal date. -/
def latest_quiz (st : DBState) (quizTypeV : Nat) : Option Quiz :=
  (st.quizzes.filter (fun q => q.id_type == quizTypeV)).foldl
    (fun acc q =>
      match acc with
      | none => some q
      | some m => if q.date > m.date then some q else some m)
    none

/-- Outcome of the `/newquiz` command. -/
inductive NewQuizOutcome where
  | notAdminMsg
  | created (d : Int)
deriving DecidableEq, Repr

/-- Embeds `new_quiz` (main.py lines 89-145): admins only; the new quiz's date
is the latest quiz's date plus one day when that quiz is dated on or after
the current quiz date, and the current quiz date otherwise. -/
def new_quiz (st : DBState) (uid : Nat) (quizTypeV : Nat)
    (newClip newAnswer : String) (currentQuizDate : Int) : NewQuizOutcome × DBState :=
  if ¬is_admin st uid then (.notAdminMsg, st)
  else
    let newDate : Int :=
      match latest_quiz st quizTypeV with
      | some lq => if lq.date ≥ currentQuizDate then lq.date + 1 else currentQuizDate
      | none => currentQuizDate
    (.created newDate,
      { st with
        quizzes := st.quizzes ++ [⟨st.nextQuizId, uid, newClip, newAnswer, quizTypeV, newDate⟩],
        nextQuizId := st.nextQuizId + 1 })

/-! ## Lifecycle invariants -/

/-- At most one correct answer per (user, quiz) pair. -/
def atMostOneCorrect (st : DBState) : Prop :=
  ∀ u q, (st.answers.filter
    (fun a => a.user_id == u && a.quiz_id == q && a.is_correct)).length ≤ 1

/-- Every recorded answer has a start timestamp for its (user, quiz) pair. -/
def answersHaveTS (st : DBState) : Prop :=
  ∀ a ∈ st.answers, ∃ t ∈ st.startTimestamps, t.user_id = a.user_id ∧ t.quiz_id = a.quiz_id

/-- At most one start timestamp per (user, quiz) pair. -/
def atMostOneTS (st : DBState) : Prop :=
  ∀ u q, (st.startTimestamps.filter
    (fun t => t.user_id == u && t.quiz_id == q)).length ≤ 1

/-- Every recorded answer's user exists. -/
def answersHaveUser (st : DBState) : Prop :=
  ∀ a ∈ st.answers, ∃ u ∈ st.users, u.id = a.user_id

/-- Every start timestamp's user exists. -/
def tsHaveUser (st : DBState) : Prop :=
  ∀ t ∈ st.startTimestamps, ∃ u ∈ st.users, u.id = t.user_id

/-- The conjunction of the lifecycle invariants. -/
def Good (st : DBState) : Prop :=
  atMostOneCorrect st ∧ answersHaveTS st ∧ atMostOneTS st ∧
    answersHaveUser st ∧ tsHaveUser st

/-! ## Helper lemmas -/

theorem gufi_quizzes (st : DBState) (uid : Nat) (uname : String) :
    (get_user_from_id st uid uname).1.quizzes = st.quizzes := by
  unfold get_user_from_id
  cases (st.users.filter (fun u => u.id == uid)).head? <;> rfl

theorem gufi_answers (st : DBState) (uid : Nat) (uname : String) :
    (get_user_from_id st uid uname).1.answers = st.answers := by
  unfold get_user_from_id
  cases (st.users.filter (fun u => u.id == uid)).head? <;> rfl

theorem gufi_ts (st : DBState) (uid : Nat) (uname : String) :
    (get_user_from_id st uid uname).1.startTimestamps = st.startTimestamps := by
  unfold get_user_from_id
  cases (st.users.filter (fun u => u.id == uid)).head? <;> rfl

theorem gufi_users_mono (st : DBState) (uid : Nat) (uname : String) :
    ∀ u ∈ st.users, u ∈ (get_user_from_id st uid uname).1.users := by
  intro u hu
  unfold get_user_from_id
  cases (st.users.filter (fun u => u.id == uid)).head? with
  | none => simp only [List.mem_append]; exact Or.inl hu
  | some _ => exact hu

theorem gufi_self_mem (st : DBState) (uid : Nat) (uname : String) :
    ∃ u ∈ (get_user_from_id st uid uname).1.users, u.id = uid := by
  unfold get_user_from_id
  cases h : (st.users.filter (fun u => u.id == uid)).head? with
  | none => exact ⟨⟨uid, uname, false⟩, by simp, rfl⟩
  | some u =>
    refine ⟨u, List.mem_of_mem_filter (List.mem_of_mem_head? h), ?_⟩
    have := List.of_mem_filter (List.mem_of_mem_head? h)
    exact eq_of_beq this

theorem gufi_id_of_user_exists (st : DBState) (uid : Nat) (uname : String)
    (h : ∃ u ∈ st.users, u.id = uid) : get_user_from_id st uid uname = (st, h.choose) ∨
      (get_user_from_id st uid uname).1 = st := by
  right
  obtain ⟨u, hu, hid⟩ := h
  unfold get_user_from_id
  cases hh : (st.users.filter (fun u => u.id == uid)).head? with
  | none =>
    exfalso
    have : st.users.filter (fun u => u.id == uid) = [] := List.head?_eq_none_iff.1 hh
    have hmem : u ∈ st.users.filter (fun u => u.id == uid) :=
      List.mem_filter.2 ⟨hu, by simp [hid]⟩
    rw [this] at hmem
    exact List.not_mem_nil u hmem
  | some _ => rfl

theorem gufi_state_of_user_exists (st : DBState) (uid : Nat) (uname : String)
    (h : ∃ u ∈ st.users, u.id = uid) : (get_user_from_id st uid uname).1 = st := by
  rcases gufi_id_of_user_exists st uid uname h with h' | h'
  · rw [h']
  · exact h'

theorem latest_quiz_foldl_bound (l : List Quiz) :
    ∀ m : Quiz, ∃ q : Quiz,
      l.foldl (fun acc q =>
        match acc with
        | none => some q
        | some m => if q.date > m.date then some q else some m) (some m) = some q ∧
      m.date ≤ q.date ∧ ∀ x ∈ l, x.date ≤ q.date := by
  induction l with
  | nil => intro m; exact ⟨m, rfl, le_refl _, by simp⟩
  | cons x t ih =>
    intro m
    by_cases hx : x.date > m.date
    · obtain ⟨q, hq, hle, hall⟩ := ih x
      refine ⟨q, ?_, ?_, ?_⟩
      · simpa [hx] using hq
      · omega
      · intro y hy
        rcases List.mem_cons.1 hy with rfl | hy
        · exact hle
        · exact hall y hy
    · obtain ⟨q, hq, hle, hall⟩ := ih m
      refine ⟨q, ?_, hle, ?_⟩
      · simpa [hx] using hq
      · intro y hy
        rcases List.mem_cons.1 hy with rfl | hy
        · omega
        · exact hall y hy

theorem latest_quiz_none_iff (st : DBState) (qt : Nat) :
    latest_quiz st qt = none ↔ st.quizzes.filter (fun q => q.id_type == qt) = [] := by
  unfold latest_quiz
  cases hf : st.quizzes.filter (fun q => q.id_type == qt) with
  | nil => simp
  | cons x t =>
    simp only [List.foldl_cons]
    obtain ⟨q, hq, _, _⟩ := latest_quiz_foldl_bound t x
    constructor
    · intro h
      rw [hq] at h
      exact absurd h (by simp)
    · intro h
      exact absurd h (by simp)

theorem latest_quiz_is_max (st : DBState) (qt : Nat) (lq : Quiz)
    (h : latest_quiz st qt = some lq) :
    ∀ q ∈ st.quizzes, q.id_type = qt → q.date ≤ lq.date := by
  intro q hq hqt
  have hqf : q ∈ st.quizzes.filter (fun q => q.id_type == qt) :=
    List.mem_filter.2 ⟨hq, by simp [hqt]⟩
  unfold latest_quiz at h
  cases hf : st.quizzes.filter (fun q => q.id_type == qt) with
  | nil => rw [hf] at hqf; exact absurd hqf (List.not_mem_nil q)
  | cons x t =>
    rw [hf] at h
    simp only [List.foldl_cons] at h
    obtain ⟨q', hq', hle, hall⟩ := latest_quiz_foldl_bound t x
    rw [hq'] at h
    injection h with h
    subst h
    rw [hf] at hqf
    rcases List.mem_cons.1 hqf with rfl | hqf
    · exact hle
    · exact hall q hqf

theorem submit_noquiz (f : String → String → Bool) (st : DBState) (uid : Nat)
    (un : String) (qt : Nat) (g : String) (now d : Int)
    (h : findQuiz st qt d = none) :
    anwswer_quiz f st uid un qt g now d =
      (.noQuizMsgThenAttrError, (get_user_from_id st uid un).1) := by
  simp [anwswer_quiz, h]

theorem submit_already (f : String → String → Bool) (st : DBState) (uid : Nat)
    (un : String) (qt : Nat) (g : String) (now d : Int) (quiz : Quiz)
    (hq : findQuiz st qt d = some quiz)
    (hac : (userAnswers (get_user_from_id st uid un).1 uid).any
      (fun a => a.quiz_id == quiz.id && a.is_correct) = true) :
    anwswer_quiz f st uid un qt g now d =
      (.alreadyAnsweredCorrectly, (get_user_from_id st uid un).1) := by
  simp [anwswer_quiz, hq, hac]

theorem submit_notstarted (f : String → String → Bool) (st : DBState) (uid : Nat)
    (un : String) (qt : Nat) (g : String) (now d : Int) (quiz : Quiz)
    (hq : findQuiz st qt d = some quiz)
    (hac : (userAnswers (get_user_from_id st uid un).1 uid).any
      (fun a => a.quiz_id == quiz.id && a.is_correct) = false)
    (hts : ((get_user_from_id st uid un).1.startTimestamps.filter
      (fun t => t.user_id == uid && t.quiz_id == quiz.id)).head? = none) :
    anwswer_quiz f st uid un qt g now d =
      (.notStartedYet, (get_user_from_id st uid un).1) := by
  simp [anwswer_quiz, hq, hac, hts]

theorem submit_shadowed (f : String → String → Bool) (st : DBState) (uid : Nat)
    (un : String) (qt : Nat) (g : String) (now d : Int) (quiz : Quiz)
    (ts : UserStartQuizTimestamp)
    (hq : findQuiz st qt d = some quiz)
    (hac : (userAnswers (get_user_from_id st uid un).1 uid).any
      (fun a => a.quiz_id == quiz.id && a.is_correct) = false)
    (hts : ((get_user_from_id st uid un).1.startTimestamps.filter
      (fun t => t.user_id == uid && t.quiz_id == quiz.id)).head? = some ts)
    (hne : (userAnswers (get_user_from_id st uid un).1 uid).isEmpty = false) :
    anwswer_quiz f st uid un qt g now d =
      (.shadowedGuessAttrError, (get_user_from_id st uid un).1) := by
  simp [anwswer_quiz, hq, hac, hts, hne]

theorem submit_matched (f : String → String → Bool) (st : DBState) (uid : Nat)
    (un : String) (qt : Nat) (g : String) (now d : Int) (quiz : Quiz)
    (ts : UserStartQuizTimestamp)
    (hq : findQuiz st qt d = some quiz)
    (he : userAnswers (get_user_from_id st uid un).1 uid = [])
    (hts : ((get_user_from_id st uid un).1.startTimestamps.filter
      (fun t => t.user_id == uid && t.quiz_id == quiz.id)).head? = some ts) :
    anwswer_quiz f st uid un qt g now d =
      (if f (process_user_input g false true) quiz.answer then
        (.correctFeedback,
          { (get_user_from_id st uid un).1 with
            answers := (get_user_from_id st uid un).1.answers ++
              [⟨uid, quiz.id, g, now - ts.timestamp, true⟩] })
      else
        (.incorrectFeedback,
          { (get_user_from_id st uid un).1 with
            answers := (get_user_from_id st uid un).1.answers ++
              [⟨uid, quiz.id, g, now - ts.timestamp, false⟩] })) := by
  have hac : (userAnswers (get_user_from_id st uid un).1 uid).any
      (fun a => a.quiz_id == quiz.id && a.is_correct) = false := by
    rw [he]; rfl
  have hne : (userAnswers (get_user_from_id st uid un).1 uid).isEmpty = true := by
    rw [he]; rfl
  simp [anwswer_quiz, hq, hac, hts, hne]

theorem callback_noquiz (st : DBState) (uid : Nat) (un : String) (qt : Nat)
    (d now : Int) (h : findQuiz st qt d = none) :
    newQuizButtonCallback st uid un qt d now = (.noQuizMsg, st) := by
  simp [newQuizButtonCallback, h]

theorem callback_seen (st : DBState) (uid : Nat) (un : String) (qt : Nat)
    (d now : Int) (quiz : Quiz)
    (hq : findQuiz st qt d = some quiz)
    (hs : ((get_user_from_id st uid un).1.startTimestamps.filter
      (fun t => t.quiz_id == quiz.id)).any (fun t => t.user_id == uid) = true) :
    newQuizButtonCallback st uid un qt d now = (.clipSent, (get_user_from_id st uid un).1) := by
  simp [newQuizButtonCallback, hq, hs]

theorem callback_new (st : DBState) (uid : Nat) (un : String) (qt : Nat)
    (d now : Int) (quiz : Quiz)
    (hq : findQuiz st qt d = some quiz)
    (hs : ((get_user_from_id st uid un).1.startTimestamps.filter
      (fun t => t.quiz_id == quiz.id)).any (fun t => t.user_id == uid) = false) :
    newQuizButtonCallback st uid un qt d now =
      (.clipSent,
        { (get_user_from_id st uid un).1 with
          startTimestamps := (get_user_from_id st uid un).1.startTimestamps ++
            [⟨uid, quiz.id, now⟩] }) := by
  simp [newQuizButtonCallback, hq, hs]

/-! ## Claim theorems -/

/-- C5: `new_quiz` computes the new instance's date as follows: with no prior
instance for the category and current quiz-date `d`, the new date is `d`;
with a prior latest instance dated `d` or later, the new date is that prior
date plus one day; with a prior instance dated strictly before `d`, the new
date is `d`; consequently the new date is at least every existing date of
the category, so dates are monotonically non-decreasing across creations. -/
theorem c5_schedule_next_dates :
    (∀ (st : DBState) (uid qt : Nat) (clip ans : String) (d : Int),
      is_admin st uid = true →
      st.quizzes.filter (fun q => q.id_type == qt) = [] →
      new_quiz st uid qt clip ans d =
        (.created d,
          { st with quizzes := st.quizzes ++ [⟨st.nextQuizId, uid, clip, ans, qt, d⟩],
                    nextQuizId := st.nextQuizId + 1 })) ∧
    (∀ (st : DBState) (uid qt : Nat) (clip ans : String) (d : Int) (lq : Quiz),
      is_admin st uid = true →
      latest_quiz st qt = some lq → d ≤ lq.date →
      new_quiz st uid qt clip ans d =
        (.created (lq.date + 1),
          { st with quizzes := st.quizzes ++ [⟨st.nextQuizId, uid, clip, ans, qt, lq.date + 1⟩],
                    nextQuizId := st.nextQuizId + 1 })) ∧
    (∀ (st : DBState) (uid qt : Nat) (clip ans : String) (d : Int) (lq : Quiz),
      is_admin st uid = true →
      latest_quiz st qt = some lq → lq.date < d →
      new_quiz st uid qt clip ans d =
        (.created d,
          { st with quizzes := st.quizzes ++ [⟨st.nextQuizId, uid, clip, ans, qt, d⟩],
                    nextQuizId := st.nextQuizId + 1 })) ∧
    (∀ (st : DBState) (uid qt : Nat) (clip ans : String) (d nd : Int),
      is_admin st uid = true →
      (new_quiz st uid qt clip ans d).1 = .created nd →
      ∀ q ∈ st.quizzes, q.id_type = qt → q.date ≤ nd) := by
  refine ⟨?_, ?_, ?_, ?_⟩
  · intro st uid qt clip ans d hadm hfil
    have hl : latest_quiz st qt = none := (latest_quiz_none_iff st qt).2 hfil
    simp [new_quiz, hadm, hl]
  · intro st uid qt clip ans d lq hadm hl hd
    have hge : lq.date ≥ d := hd
    simp [new_quiz, hadm, hl, hge]
  · intro st uid qt clip ans d lq hadm hl hd
    have hge : ¬lq.date ≥ d := by omega
    simp [new_quiz, hadm, hl, hge]
  · intro st uid qt clip ans d nd hadm hout q hq hqt
    cases hl : latest_quiz st qt with
    | none =>
      exfalso
      have hfil := (latest_quiz_none_iff st qt).1 hl
      have hm : q ∈ st.quizzes.filter (fun q => q.id_type == qt) :=
        List.mem_filter.2 ⟨hq, by simp [hqt]⟩
      rw [hfil] at hm
      exact List.not_mem_nil q hm
    | some lq =>
      have hle := latest_quiz_is_max st qt lq hl q hq hqt
      by_cases hge : lq.date ≥ d
      · simp [new_quiz, hadm, hl, hge] at hout
        omega
      · simp [new_quiz, hadm, hl, hge] at hout
        omega

/-- Witness for C5, applying each part at concrete states: an empty category
yields the current quiz-date 4; a latest quiz dated 4 with current date 4
yields 5; a latest quiz dated 4 with current date 9 yields 9; and the new
date 5 is at least the existing date 4. -/
theorem c5_schedule_next_dates_witness :
    new_quiz ⟨[], [⟨7, "adm", true⟩], [], [], 0⟩ 7 1 "c" "a" 4 =
      (.created 4, ⟨[⟨0, 7, "c", "a", 1, 4⟩], [⟨7, "adm", true⟩], [], [], 1⟩) ∧
    new_quiz ⟨[⟨0, 7, "c", "a", 1, 4⟩], [⟨7, "adm", true⟩], [], [], 1⟩ 7 1 "c2" "a2" 4 =
      (.created 5,
        ⟨[⟨0, 7, "c", "a", 1, 4⟩, ⟨1, 7, "c2", "a2", 1, 5⟩], [⟨7, "adm", true⟩], [], [], 2⟩) ∧
    new_quiz ⟨[⟨0, 7, "c", "a", 1, 4⟩], [⟨7, "adm", true⟩], [], [], 1⟩ 7 1 "c3" "a3" 9 =
      (.created 9,
        ⟨[⟨0, 7, "c", "a", 1, 4⟩, ⟨1, 7, "c3", "a3", 1, 9⟩], [⟨7, "adm", true⟩], [], [], 2⟩) ∧
    (∀ q ∈ ([⟨0, 7, "c", "a", 1, 4⟩] : List Quiz), q.id_type = 1 → q.date ≤ 5) := by
  refine ⟨?_, ?_, ?_, ?_⟩
  · exact c5_schedule_next_dates.1 ⟨[], [⟨7, "adm", true⟩], [], [], 0⟩ 7 1 "c" "a" 4
      (by decide) (by decide)
  · exact c5_schedule_next_dates.2.1
      ⟨[⟨0, 7, "c", "a", 1, 4⟩], [⟨7, "adm", true⟩], [], [], 1⟩ 7 1 "c2" "a2" 4
      ⟨0, 7, "c", "a", 1, 4⟩ (by decide) (by decide) (by decide)
  · exact c5_schedule_next_dates.2.2.1
      ⟨[⟨0, 7, "c", "a", 1, 4⟩], [⟨7, "adm", true⟩], [], [], 1⟩ 7 1 "c3" "a3" 9
      ⟨0, 7, "c", "a", 1, 4⟩ (by decide) (by decide) (by decide)
  · exact c5_schedule_next_dates.2.2.2
      ⟨[⟨0, 7, "c", "a", 1, 4⟩], [⟨7, "adm", true⟩], [], [], 1⟩ 7 1 "c2" "a2" 4 5
      (by decide) (by decide)

/-- C10: the word-swap decision counts fields of a split on the single space
character, including empty fields: `"A "` splits into two fields, one of
them empty, so the swap fires (with the empty token, giving the swapped
input `" A"`); `"A  B"` splits into three fields, so no swap happens and the
compiled original is returned unchanged. -/
theorem c10_split_keeps_empty_fields :
    splitSp "A ".data = [['A'], []] ∧
    (∀ pm : Bool, process_user_input "A " pm true =
      "(" ++ generate_regex_pattern "A " pm ++ ")|(" ++
        generate_regex_pattern " A" pm ++ ")") ∧
    (splitSp "A  B".data).length = 3 ∧
    (∀ pm : Bool, process_user_input "A  B" pm true = generate_regex_pattern "A  B" pm) := by
  refine ⟨by decide, ?_, by decide, ?_⟩
  · intro pm; cases pm <;> rfl
  · intro pm; cases pm <;> rfl

theorem userAnswers_gufi (st : DBState) (uid : Nat) (un : String) :
    userAnswers (get_user_from_id st uid un).1 uid = userAnswers st uid := by
  unfold userAnswers
  rw [gufi_answers]

theorem amoc_of_answers_eq {st st' : DBState} (h : st'.answers = st.answers)
    (hm : atMostOneCorrect st) : atMostOneCorrect st' := by
  intro u q
  rw [h]
  exact hm u q

theorem filter_user_nil_of_userAnswers_nil (st : DBState) (uid q : Nat)
    (he : userAnswers st uid = []) :
    st.answers.filter (fun a => a.user_id == uid && a.quiz_id == q && a.is_correct) = [] := by
  rw [List.filter_eq_nil_iff]
  intro a ha hcontra
  simp only [Bool.and_eq_true] at hcontra
  have : a ∈ userAnswers st uid := List.mem_filter.2 ⟨ha, hcontra.1.1⟩
  rw [he] at this
  exact List.not_mem_nil a this

theorem amoc_append (st : DBState) (uid : Nat) (A : Answer) (hA : A.user_id = uid)
    (he : userAnswers st uid = []) (hm : atMostOneCorrect st) :
    ∀ u q, ((st.answers ++ [A]).filter
      (fun a => a.user_id == u && a.quiz_id == q && a.is_correct)).length ≤ 1 := by
  intro u q
  rw [List.filter_append, List.length_append]
  by_cases hu : u = uid
  · subst hu
    rw [filter_user_nil_of_userAnswers_nil st u q he]
    simp only [List.length_nil, Nat.zero_add]
    exact le_trans (List.length_filter_le _ _) (by simp)
  · have hnil : ((([A] : List Answer)).filter
        (fun a => a.user_id == u && a.quiz_id == q && a.is_correct)) = [] := by
      rw [List.filter_eq_nil_iff]
      intro a ha hc
      have haA : a = A := List.mem_singleton.1 ha
      subst haA
      simp only [Bool.and_eq_true] at hc
      exact hu (by rw [← hA, eq_of_beq hc.1.1])
    rw [hnil]
    simpa using hm u q

/-- C3: once a correct AnswerAttempt exists for a (user, quiz) pair, any
submission for the same pair is refused with the already-answered message
before any matching is attempted and the state is unchanged; moreover every
operation preserves the at-most-one-correct-answer-per-pair invariant, so at
most one correct AnswerAttempt per pair ever exists. -/
theorem c3_already_solved_guard :
    (∀ (f : String → String → Bool) (st : DBState) (uid : Nat) (un : String)
       (qt : Nat) (g : String) (now d : Int) (quiz : Quiz),
      answersHaveUser st → findQuiz st qt d = some quiz →
      (∃ a ∈ st.answers, a.user_id = uid ∧ a.quiz_id = quiz.id ∧ a.is_correct = true) →
      anwswer_quiz f st uid un qt g now d = (.alreadyAnsweredCorrectly, st)) ∧
    (∀ (f : String → String → Bool) (st : DBState) (uid : Nat) (un : String)
       (qt : Nat) (g : String) (now d : Int),
      atMostOneCorrect st → atMostOneCorrect (anwswer_quiz f st uid un qt g now d).2) ∧
    (∀ (st : DBState) (uid : Nat) (un : String) (qt : Nat) (d now : Int),
      atMostOneCorrect st → atMostOneCorrect (newQuizButtonCallback st uid un qt d now).2) ∧
    (∀ (st : DBState) (uid qt : Nat) (c a : String) (d : Int),
      atMostOneCorrect st → atMostOneCorrect (new_quiz st uid qt c a d).2) := by
  refine ⟨?_, ?_, ?_, ?_⟩
  · intro f st uid un qt g now d quiz hu hq hex
    obtain ⟨a, ha, hau, haq, hacorr⟩ := hex
    obtain ⟨u, humem, huid⟩ := hu a ha
    have hst1 : (get_user_from_id st uid un).1 = st :=
      gufi_state_of_user_exists st uid un ⟨u, humem, by rw [huid, hau]⟩
    have hany : (userAnswers (get_user_from_id st uid un).1 uid).any
        (fun a => a.quiz_id == quiz.id && a.is_correct) = true := by
      rw [userAnswers_gufi]
      refine List.any_eq_true.2 ⟨a, List.mem_filter.2 ⟨ha, by simp [hau]⟩, ?_⟩
      simp [haq, hacorr]
    rw [submit_already f st uid un qt g now d quiz hq hany, hst1]
  · intro f st uid un qt g now d hm
    cases hq : findQuiz st qt d with
    | none =>
      rw [submit_noquiz f st uid un qt g now d hq]
      exact amoc_of_answers_eq (gufi_answers st uid un) hm
    | some quiz =>
      cases hac : (userAnswers (get_user_from_id st uid un).1 uid).any
          (fun a => a.quiz_id == quiz.id && a.is_correct) with
      | true =>
        rw [submit_already f st uid un qt g now d quiz hq hac]
        exact amoc_of_answers_eq (gufi_answers st uid un) hm
      | false =>
        cases hts : ((get_user_from_id st uid un).1.startTimestamps.filter
            (fun t => t.user_id == uid && t.quiz_id == quiz.id)).head? with
        | none =>
          rw [submit_notstarted f st uid un qt g now d quiz hq hac hts]
          exact amoc_of_answers_eq (gufi_answers st uid un) hm
        | some ts =>
          cases hne : (userAnswers (get_user_from_id st uid un).1 uid).isEmpty with
          | false =>
            rw [submit_shadowed f st uid un qt g now d quiz ts hq hac hts hne]
            exact amoc_of_answers_eq (gufi_answers st uid un) hm
          | true =>
            have he : userAnswers (get_user_from_id st uid un).1 uid = [] :=
              List.isEmpty_iff.1 hne
            have he' : userAnswers st uid = [] := by rwa [userAnswers_gufi] at he
            rw [submit_matched f st uid un qt g now d quiz ts hq he hts]
            by_cases hf : f (process_user_input g false true) quiz.answer
            · rw [if_pos hf]
              intro u q
              simp only [gufi_answers]
              exact amoc_append st uid ⟨uid, quiz.id, g, now - ts.timestamp, true⟩ rfl he' hm u q
            · rw [if_neg hf]
              intro u q
              simp only [gufi_answers]
              exact amoc_append st uid ⟨uid, quiz.id, g, now - ts.timestamp, false⟩ rfl he' hm u q
  · intro st uid un qt d now hm
    cases hq : findQuiz st qt d with
    | none => rw [callback_noquiz st uid un qt d now hq]; exact hm
    | some quiz =>
      cases hs : ((get_user_from_id st uid un).1.startTimestamps.filter
          (fun t => t.quiz_id == quiz.id)).any (fun t => t.user_id == uid) with
      | true =>
        rw [callback_seen st uid un qt d now quiz hq hs]
        exact amoc_of_answers_eq (gufi_answers st uid un) hm
      | false =>
        rw [callback_new st uid un qt d now quiz hq hs]
        exact amoc_of_answers_eq (gufi_answers st uid un) hm
  · intro st uid qt c a d hm
    cases hadm : is_admin st uid with
    | false =>
      have hstate : (new_quiz st uid qt c a d).2 = st := by simp [new_quiz, hadm]
      rw [hstate]; exact hm
    | true =>
      have hstate : (new_quiz st uid qt c a d).2.answers = st.answers := by
        simp [new_quiz, hadm]
      exact amoc_of_answers_eq hstate hm

/-- Witness for C3, applying each part at a concrete state: a user with a
recorded correct answer for the quiz is refused with the state unchanged,
and the invariant is preserved across one call of each operation. -/
theorem c3_already_solved_guard_witness :
    (anwswer_quiz (fun _ _ => true)
      ⟨[⟨1, 0, "c", "ans", 1, 0⟩], [⟨1, "u", false⟩], [⟨1, 1, "g", 3, true⟩], [⟨1, 1, 0⟩], 2⟩
      1 "u" 1 "again" 9 0 =
      (.alreadyAnsweredCorrectly,
        ⟨[⟨1, 0, "c", "ans", 1, 0⟩], [⟨1, "u", false⟩], [⟨1, 1, "g", 3, true⟩], [⟨1, 1, 0⟩], 2⟩)) ∧
    atMostOneCorrect (anwswer_quiz (fun _ _ => true)
      ⟨[⟨1, 0, "c", "ans", 1, 0⟩], [⟨1, "u", false⟩], [⟨1, 1, "g", 3, true⟩], [⟨1, 1, 0⟩], 2⟩
      1 "u" 1 "again" 9 0).2 ∧
    atMostOneCorrect (newQuizButtonCallback
      ⟨[⟨1, 0, "c", "ans", 1, 0⟩], [⟨1, "u", false⟩], [⟨1, 1, "g", 3, true⟩], [⟨1, 1, 0⟩], 2⟩
      1 "u" 1 0 5).2 ∧
    atMostOneCorrect (new_quiz
      ⟨[⟨1, 0, "c", "ans", 1, 0⟩], [⟨7, "adm", true⟩], [⟨1, 1, "g", 3, true⟩], [⟨1, 1, 0⟩], 2⟩
      7 1 "c2" "a2" 3).2 := by
  have hm1 : atMostOneCorrect
      ⟨[⟨1, 0, "c", "ans", 1, 0⟩], [⟨1, "u", false⟩], [⟨1, 1, "g", 3, true⟩], [⟨1, 1, 0⟩], 2⟩ := by
    intro u q
    exact le_trans (List.length_filter_le _ _) (by simp)
  have hm2 : atMostOneCorrect
      ⟨[⟨1, 0, "c", "ans", 1, 0⟩], [⟨7, "adm", true⟩], [⟨1, 1, "g", 3, true⟩], [⟨1, 1, 0⟩], 2⟩ := by
    intro u q
    exact le_trans (List.length_filter_le _ _) (by simp)
  refine ⟨?_, ?_, ?_, ?_⟩
  · exact c3_already_solved_guard.1 (fun _ _ => true) _ 1 "u" 1 "again" 9 0 ⟨1, 0, "c", "ans", 1, 0⟩
      (by unfold answersHaveUser; decide) (by decide)
      ⟨⟨1, 1, "g", 3, true⟩, by simp, rfl, rfl, rfl⟩
  · exact c3_already_solved_guard.2.1 (fun _ _ => true) _ 1 "u" 1 "again" 9 0 hm1
  · exact c3_already_solved_guard.2.2.1 _ 1 "u" 1 0 5 hm1
  · exact c3_already_solved_guard.2.2.2 _ 7 1 "c2" "a2" 3 hm2

theorem findQuiz_congr {st st' : DBState} (h : st'.quizzes = st.quizzes)
    (qt : Nat) (d : Int) : findQuiz st' qt d = findQuiz st qt d := by
  unfold findQuiz
  rw [h]

theorem amots_of_ts_eq {st st' : DBState}
    (h : st'.startTimestamps = st.startTimestamps)
    (hm : atMostOneTS st) : atMostOneTS st' := by
  intro u q
  rw [h]
  exact hm u q

theorem amots_append (st : DBState) (uid qid : Nat) (nowv : Int)
    (hnone : ∀ t ∈ st.startTimestamps, ¬(t.user_id = uid ∧ t.quiz_id = qid))
    (hm : atMostOneTS st) :
    ∀ u q, ((st.startTimestamps ++ [(⟨uid, qid, nowv⟩ : UserStartQuizTimestamp)]).filter
      (fun t => t.user_id == u && t.quiz_id == q)).length ≤ 1 := by
  intro u q
  rw [List.filter_append, List.length_append]
  by_cases hp : u = uid ∧ q = qid
  · obtain ⟨rfl, rfl⟩ := hp
    have hnil : st.startTimestamps.filter (fun t => t.user_id == u && t.quiz_id == q) = [] := by
      rw [List.filter_eq_nil_iff]
      intro t ht hc
      simp only [Bool.and_eq_true, beq_iff_eq] at hc
      exact hnone t ht hc
    rw [hnil]
    simp
  · have hnil : (([(⟨uid, qid, nowv⟩ : UserStartQuizTimestamp)]).filter
        (fun t => t.user_id == u && t.quiz_id == q)) = [] := by
      rw [List.filter_eq_nil_iff]
      intro t ht hc
      have htA : t = ⟨uid, qid, nowv⟩ := List.mem_singleton.1 ht
      subst htA
      simp only [Bool.and_eq_true, beq_iff_eq] at hc
      exact hp ⟨hc.1.symm ▸ rfl, hc.2.symm ▸ rfl⟩
    rw [hnil]
    simpa using hm u q

/-- C4: with a quiz present, a submission is refused with the not-started
message exactly when no start timestamp exists for the (user, quiz) pair; in
that case no AnswerAttempt is created; and after the play button records a
view for the pair, a submission is never refused for that reason. -/
theorem c4_not_viewed_guard :
    (∀ (f : String → String → Bool) (st : DBState) (uid : Nat) (un : String)
       (qt : Nat) (g : String) (now d : Int) (quiz : Quiz),
      answersHaveTS st → findQuiz st qt d = some quiz →
      ((anwswer_quiz f st uid un qt g now d).1 = .notStartedYet ↔
        ¬∃ t ∈ st.startTimestamps, t.user_id = uid ∧ t.quiz_id = quiz.id)) ∧
    (∀ (f : String → String → Bool) (st : DBState) (uid : Nat) (un : String)
       (qt : Nat) (g : String) (now d : Int),
      (anwswer_quiz f st uid un qt g now d).1 = .notStartedYet →
      (anwswer_quiz f st uid un qt g now d).2.answers = st.answers) ∧
    (∀ (f : String → String → Bool) (st : DBState) (uid : Nat) (un : String)
       (qt : Nat) (g : String) (now now2 d : Int) (quiz : Quiz),
      findQuiz st qt d = some quiz →
      (anwswer_quiz f (newQuizButtonCallback st uid un qt d now2).2 uid un qt g now d).1 ≠
        .notStartedYet) := by
  refine ⟨?_, ?_, ?_⟩
  · intro f st uid un qt g now d quiz hats hq
    constructor
    · intro hout hex
      obtain ⟨t, ht, ht1, ht2⟩ := hex
      cases hac : (userAnswers (get_user_from_id st uid un).1 uid).any
          (fun a => a.quiz_id == quiz.id && a.is_correct) with
      | true =>
        rw [submit_already f st uid un qt g now d quiz hq hac] at hout
        exact absurd hout (by simp)
      | false =>
        cases hts : ((get_user_from_id st uid un).1.startTimestamps.filter
            (fun t => t.user_id == uid && t.quiz_id == quiz.id)).head? with
        | some ts =>
          cases hne : (userAnswers (get_user_from_id st uid un).1 uid).isEmpty with
          | false =>
            rw [submit_shadowed f st uid un qt g now d quiz ts hq hac hts hne] at hout
            exact absurd hout (by simp)
          | true =>
            have he : userAnswers (get_user_from_id st uid un).1 uid = [] :=
              List.isEmpty_iff.1 hne
            rw [submit_matched f st uid un qt g now d quiz ts hq he hts] at hout
            by_cases hf : f (process_user_input g false true) quiz.answer
            · rw [if_pos hf] at hout; exact absurd hout (by simp)
            · rw [if_neg hf] at hout; exact absurd hout (by simp)
        | none =>
          rw [gufi_ts] at hts
          have hfil := List.head?_eq_none_iff.1 hts
          have : t ∈ st.startTimestamps.filter
              (fun t => t.user_id == uid && t.quiz_id == quiz.id) :=
            List.mem_filter.2 ⟨ht, by simp [ht1, ht2]⟩
          rw [hfil] at this
          exact List.not_mem_nil t this
    · intro hno
      have hac : (userAnswers (get_user_from_id st uid un).1 uid).any
          (fun a => a.quiz_id == quiz.id && a.is_correct) = false := by
        cases hac : (userAnswers (get_user_from_id st uid un).1 uid).any
            (fun a => a.quiz_id == quiz.id && a.is_correct) with
        | false => rfl
        | true =>
          exfalso
          obtain ⟨a, hamem, hap⟩ := List.any_eq_true.1 hac
          rw [userAnswers_gufi] at hamem
          have hast : a ∈ st.answers := List.mem_filter.1 hamem |>.1
          have hauid : a.user_id = uid := eq_of_beq (List.mem_filter.1 hamem |>.2)
          simp only [Bool.and_eq_true, beq_iff_eq] at hap
          obtain ⟨t, htmem, ht1, ht2⟩ := hats a hast
          exact hno ⟨t, htmem, by rw [ht1, hauid], by rw [ht2, hap.1]⟩
      cases hts : ((get_user_from_id st uid un).1.startTimestamps.filter
          (fun t => t.user_id == uid && t.quiz_id == quiz.id)).head? with
      | some ts =>
        exfalso
        have htsmem := List.mem_of_mem_head? hts
        have h1 := List.mem_filter.1 htsmem
        rw [gufi_ts] at h1
        simp only [Bool.and_eq_true, beq_iff_eq] at h1
        exact hno ⟨ts, h1.1, h1.2.1, h1.2.2⟩
      | none =>
        rw [submit_notstarted f st uid un qt g now d quiz hq hac hts]
  · intro f st uid un qt g now d hout
    cases hq : findQuiz st qt d with
    | none =>
      rw [submit_noquiz f st uid un qt g now d hq]
      exact gufi_answers st uid un
    | some quiz =>
      cases hac : (userAnswers (get_user_from_id st uid un).1 uid).any
          (fun a => a.quiz_id == quiz.id && a.is_correct) with
      | true =>
        rw [submit_already f st uid un qt g now d quiz hq hac]
        exact gufi_answers st uid un
      | false =>
        cases hts : ((get_user_from_id st uid un).1.startTimestamps.filter
            (fun t => t.user_id == uid && t.quiz_id == quiz.id)).head? with
        | none =>
          rw [submit_notstarted f st uid un qt g now d quiz hq hac hts]
          exact gufi_answers st uid un
        | some ts =>
          exfalso
          cases hne : (userAnswers (get_user_from_id st uid un).1 uid).isEmpty with
          | false =>
            rw [submit_shadowed f st uid un qt g now d quiz ts hq hac hts hne] at hout
            exact absurd hout (by simp)
          | true =>
            have he : userAnswers (get_user_from_id st uid un).1 uid = [] :=
              List.isEmpty_iff.1 hne
            rw [submit_matched f st uid un qt g now d quiz ts hq he hts] at hout
            by_cases hf : f (process_user_input g false true) quiz.answer
            · rw [if_pos hf] at hout; exact absurd hout (by simp)
            · rw [if_neg hf] at hout; exact absurd hout (by simp)
  · intro f st uid un qt g now now2 d quiz hq
    set st2 := (newQuizButtonCallback st uid un qt d now2).2 with hst2
    have hq2 : findQuiz st2 qt d = some quiz := by
      rw [hst2]
      cases hs : ((get_user_from_id st uid un).1.startTimestamps.filter
          (fun t => t.quiz_id == quiz.id)).any (fun t => t.user_id == uid) with
      | true =>
        rw [callback_seen st uid un qt d now2 quiz hq hs]
        rw [findQuiz_congr (gufi_quizzes st uid un) qt d]
        exact hq
      | false =>
        rw [callback_new st uid un qt d now2 quiz hq hs]
        rw [findQuiz_congr (by exact gufi_quizzes st uid un) qt d]
        exact hq
    have hpair : ∃ t ∈ st2.startTimestamps, t.user_id = uid ∧ t.quiz_id = quiz.id := by
      rw [hst2]
      cases hs : ((get_user_from_id st uid un).1.startTimestamps.filter
          (fun t => t.quiz_id == quiz.id)).any (fun t => t.user_id == uid) with
      | true =>
        rw [callback_seen st uid un qt d now2 quiz hq hs]
        obtain ⟨t, htmem, htu⟩ := List.any_eq_true.1 hs
        have h1 := List.mem_filter.1 htmem
        exact ⟨t, h1.1, eq_of_beq htu, eq_of_beq h1.2⟩
      | false =>
        rw [callback_new st uid un qt d now2 quiz hq hs]
        exact ⟨⟨uid, quiz.id, now2⟩, by simp, rfl, rfl⟩
    obtain ⟨t, htmem, ht1, ht2⟩ := hpair
    cases hac : (userAnswers (get_user_from_id st2 uid un).1 uid).any
        (fun a => a.quiz_id == quiz.id && a.is_correct) with
    | true =>
      rw [submit_already f st2 uid un qt g now d quiz hq2 hac]
      simp
    | false =>
      cases hts : ((get_user_from_id st2 uid un).1.startTimestamps.filter
          (fun t => t.user_id == uid && t.quiz_id == quiz.id)).head? with
      | none =>
        exfalso
        rw [gufi_ts] at hts
        have hfil := List.head?_eq_none_iff.1 hts
        have : t ∈ st2.startTimestamps.filter
            (fun t => t.user_id == uid && t.quiz_id == quiz.id) :=
          List.mem_filter.2 ⟨htmem, by simp [ht1, ht2]⟩
        rw [hfil] at this
        exact List.not_mem_nil t this
      | some ts =>
        cases hne : (userAnswers (get_user_from_id st2 uid un).1 uid).isEmpty with
        | false =>
          rw [submit_shadowed f st2 uid un qt g now d quiz ts hq2 hac hts hne]
          simp
        | true =>
          have he : userAnswers (get_user_from_id st2 uid un).1 uid = [] :=
            List.isEmpty_iff.1 hne
          rw [submit_matched f st2 uid un qt g now d quiz ts hq2 he hts]
          by_cases hf : f (process_user_input g false true) quiz.answer
          · rw [if_pos hf]; simp
          · rw [if_neg hf]; simp

/-- Witness for C4, applying each part at concrete states: with a quiz but no
start timestamp the submission is refused as not-started and records
nothing, and submitting right after clicking the play button is not refused
for that reason. -/
theorem c4_not_viewed_guard_witness :
    ((anwswer_quiz (fun _ _ => true)
        ⟨[⟨1, 0, "c", "ans", 1, 0⟩], [⟨1, "u", false⟩], [], [], 2⟩ 1 "u" 1 "g" 9 0).1 =
          .notStartedYet ↔
      ¬∃ t ∈ ([] : List UserStartQuizTimestamp), t.user_id = 1 ∧ t.quiz_id = 1) ∧
    ((anwswer_quiz (fun _ _ => true)
        ⟨[⟨1, 0, "c", "ans", 1, 0⟩], [⟨1, "u", false⟩], [], [], 2⟩ 1 "u" 1 "g" 9 0).2.answers =
      []) ∧
    ((anwswer_quiz (fun _ _ => true)
        (newQuizButtonCallback
          ⟨[⟨1, 0, "c", "ans", 1, 0⟩], [⟨1, "u", false⟩], [], [], 2⟩ 1 "u" 1 0 5).2
        1 "u" 1 "g" 9 0).1 ≠ .notStartedYet) := by
  refine ⟨?_, ?_, ?_⟩
  · exact c4_not_viewed_guard.1 (fun _ _ => true) _ 1 "u" 1 "g" 9 0 ⟨1, 0, "c", "ans", 1, 0⟩
      (by unfold answersHaveTS; decide) (by decide)
  · exact c4_not_viewed_guard.2.1 (fun _ _ => true) _ 1 "u" 1 "g" 9 0 (by decide)
  · exact c4_not_viewed_guard.2.2 (fun _ _ => true) _ 1 "u" 1 "g" 9 5 0
      ⟨1, 0, "c", "ans", 1, 0⟩ (by decide)

/-- C9: the play button's view recording is idempotent: with a quiz present,
the first click creates exactly one start timestamp carrying the current
time and changes nothing else; a second click for the same pair leaves the
state entirely unchanged and is not an error; and every operation preserves
the at-most-one-timestamp-per-pair invariant. -/
theorem c9_record_view_idempotent :
    (∀ (st : DBState) (uid : Nat) (un : String) (qt : Nat) (d now : Int) (quiz : Quiz),
      findQuiz st qt d = some quiz →
      ¬(∃ t ∈ st.startTimestamps, t.user_id = uid ∧ t.quiz_id = quiz.id) →
      (newQuizButtonCallback st uid un qt d now).1 = .clipSent ∧
      (newQuizButtonCallback st uid un qt d now).2.startTimestamps =
        st.startTimestamps ++ [⟨uid, quiz.id, now⟩] ∧
      (newQuizButtonCallback st uid un qt d now).2.answers = st.answers ∧
      (newQuizButtonCallback st uid un qt d now).2.quizzes = st.quizzes) ∧
    (∀ (st : DBState) (uid : Nat) (un : String) (qt : Nat) (d now : Int) (quiz : Quiz),
      tsHaveUser st → findQuiz st qt d = some quiz →
      (∃ t ∈ st.startTimestamps, t.user_id = uid ∧ t.quiz_id = quiz.id) →
      newQuizButtonCallback st uid un qt d now = (.clipSent, st)) ∧
    (∀ (st : DBState) (uid : Nat) (un : String) (qt : Nat) (d now : Int),
      atMostOneTS st → atMostOneTS (newQuizButtonCallback st uid un qt d now).2) ∧
    (∀ (f : String → String → Bool) (st : DBState) (uid : Nat) (un : String)
       (qt : Nat) (g : String) (now d : Int),
      atMostOneTS st → atMostOneTS (anwswer_quiz f st uid un qt g now d).2) ∧
    (∀ (st : DBState) (uid qt : Nat) (c a : String) (d : Int),
      atMostOneTS st → atMostOneTS (new_quiz st uid qt c a d).2) := by
  refine ⟨?_, ?_, ?_, ?_, ?_⟩
  · intro st uid un qt d now quiz hq hno
    have hs : ((get_user_from_id st uid un).1.startTimestamps.filter
        (fun t => t.quiz_id == quiz.id)).any (fun t => t.user_id == uid) = false := by
      cases hs : ((get_user_from_id st uid un).1.startTimestamps.filter
          (fun t => t.quiz_id == quiz.id)).any (fun t => t.user_id == uid) with
      | false => rfl
      | true =>
        exfalso
        obtain ⟨t, htmem, htu⟩ := List.any_eq_true.1 hs
        have h1 := List.mem_filter.1 htmem
        rw [gufi_ts] at h1
        exact hno ⟨t, h1.1, eq_of_beq htu, eq_of_beq h1.2⟩
    rw [callback_new st uid un qt d now quiz hq hs]
    refine ⟨rfl, ?_, gufi_answers st uid un, gufi_quizzes st uid un⟩
    simp only [gufi_ts]
  · intro st uid un qt d now quiz htsu hq hex
    obtain ⟨t, htmem, ht1, ht2⟩ := hex
    have hst1 : (get_user_from_id st uid un).1 = st := by
      obtain ⟨u, humem, huid⟩ := htsu t htmem
      exact gufi_state_of_user_exists st uid un ⟨u, humem, by rw [huid, ht1]⟩
    have hs : ((get_user_from_id st uid un).1.startTimestamps.filter
        (fun t => t.quiz_id == quiz.id)).any (fun t => t.user_id == uid) = true := by
      rw [hst1]
      exact List.any_eq_true.2 ⟨t, List.mem_filter.2 ⟨htmem, by simp [ht2]⟩, by simp [ht1]⟩
    rw [callback_seen st uid un qt d now quiz hq hs, hst1]
  · intro st uid un qt d now hm
    cases hq : findQuiz st qt d with
    | none => rw [callback_noquiz st uid un qt d now hq]; exact hm
    | some quiz =>
      cases hs : ((get_user_from_id st uid un).1.startTimestamps.filter
          (fun t => t.quiz_id == quiz.id)).any (fun t => t.user_id == uid) with
      | true =>
        rw [callback_seen st uid un qt d now quiz hq hs]
        exact amots_of_ts_eq (gufi_ts st uid un) hm
      | false =>
        rw [callback_new st uid un qt d now quiz hq hs]
        intro u q
        simp only [gufi_ts]
        refine amots_append st uid quiz.id now ?_ hm u q
        intro t htmem ⟨ht1, ht2⟩
        have : ((get_user_from_id st uid un).1.startTimestamps.filter
            (fun t => t.quiz_id == quiz.id)).any (fun t => t.user_id == uid) = true := by
          rw [gufi_ts]
          exact List.any_eq_true.2 ⟨t, List.mem_filter.2 ⟨htmem, by simp [ht2]⟩, by simp [ht1]⟩
        rw [hs] at this
        exact absurd this (by simp)
  · intro f st uid un qt g now d hm
    cases hq : findQuiz st qt d with
    | none =>
      rw [submit_noquiz f st uid un qt g now d hq]
      exact amots_of_ts_eq (gufi_ts st uid un) hm
    | some quiz =>
      cases hac : (userAnswers (get_user_from_id st uid un).1 uid).any
          (fun a => a.quiz_id == quiz.id && a.is_correct) with
      | true =>
        rw [submit_already f st uid un qt g now d quiz hq hac]
        exact amots_of_ts_eq (gufi_ts st uid un) hm
      | false =>
        cases hts : ((get_user_from_id st uid un).1.startTimestamps.filter
            (fun t => t.user_id == uid && t.quiz_id == quiz.id)).head? with
        | none =>
          rw [submit_notstarted f st uid un qt g now d quiz hq hac hts]
          exact amots_of_ts_eq (gufi_ts st uid un) hm
        | some ts =>
          cases hne : (userAnswers (get_user_from_id st uid un).1 uid).isEmpty with
          | false =>
            rw [submit_shadowed f st uid un qt g now d quiz ts hq hac hts hne]
            exact amots_of_ts_eq (gufi_ts st uid un) hm
          | true =>
            have he : userAnswers (get_user_from_id st uid un).1 uid = [] :=
              List.isEmpty_iff.1 hne
            rw [submit_matched f st uid un qt g now d quiz ts hq he hts]
            by_cases hf : f (process_user_input g false true) quiz.answer
            · rw [if_pos hf]
              exact amots_of_ts_eq (gufi_ts st uid un) hm
            · rw [if_neg hf]
              exact amots_of_ts_eq (gufi_ts st uid un) hm
  · intro st uid qt c a d hm
    cases hadm : is_admin st uid with
    | false =>
      have hstate : (new_quiz st uid qt c a d).2 = st := by simp [new_quiz, hadm]
      rw [hstate]; exact hm
    | true =>
      have hstate : (new_quiz st uid qt c a d).2.startTimestamps = st.startTimestamps := by
        simp [new_quiz, hadm]
      exact amots_of_ts_eq hstate hm

/-- Witness for C9, applying each part at concrete states: the first click
records the timestamp, the second click is a no-op, and the invariant is
preserved across one call of each operation. -/
theorem c9_record_view_idempotent_witness :
    ((newQuizButtonCallback
        ⟨[⟨1, 0, "c", "ans", 1, 0⟩], [⟨1, "u", false⟩], [], [], 2⟩ 1 "u" 1 0 5).1 = .clipSent ∧
      (newQuizButtonCallback
        ⟨[⟨1, 0, "c", "ans", 1, 0⟩], [⟨1, "u", false⟩], [], [], 2⟩ 1 "u" 1 0 5).2.startTimestamps =
        [] ++ [⟨1, 1, 5⟩] ∧
      (newQuizButtonCallback
        ⟨[⟨1, 0, "c", "ans", 1, 0⟩], [⟨1, "u", false⟩], [], [], 2⟩ 1 "u" 1 0 5).2.answers = [] ∧
      (newQuizButtonCallback
        ⟨[⟨1, 0, "c", "ans", 1, 0⟩], [⟨1, "u", false⟩], [], [], 2⟩ 1 "u" 1 0 5).2.quizzes =
        [⟨1, 0, "c", "ans", 1, 0⟩]) ∧
    (newQuizButtonCallback
        ⟨[⟨1, 0, "c", "ans", 1, 0⟩], [⟨1, "u", false⟩], [], [⟨1, 1, 5⟩], 2⟩ 1 "u" 1 0 9 =
      (.clipSent, ⟨[⟨1, 0, "c", "ans", 1, 0⟩], [⟨1, "u", false⟩], [], [⟨1, 1, 5⟩], 2⟩)) ∧
    atMostOneTS (newQuizButtonCallback
      ⟨[⟨1, 0, "c", "ans", 1, 0⟩], [⟨1, "u", false⟩], [], [], 2⟩ 1 "u" 1 0 5).2 ∧
    atMostOneTS (anwswer_quiz (fun _ _ => true)
      ⟨[⟨1, 0, "c", "ans", 1, 0⟩], [⟨1, "u", false⟩], [], [⟨1, 1, 5⟩], 2⟩ 1 "u" 1 "g" 9 0).2 ∧
    atMostOneTS (new_quiz
      ⟨[⟨1, 0, "c", "ans", 1, 0⟩], [⟨7, "adm", true⟩], [], [], 2⟩ 7 1 "c2" "a2" 3).2 := by
  have hm0 : atMostOneTS
      ⟨[⟨1, 0, "c", "ans", 1, 0⟩], [⟨1, "u", false⟩], [], [], 2⟩ := by
    intro u q
    exact le_trans (List.length_filter_le _ _) (by simp)
  have hm1 : atMostOneTS
      ⟨[⟨1, 0, "c", "ans", 1, 0⟩], [⟨1, "u", false⟩], [], [⟨1, 1, 5⟩], 2⟩ := by
    intro u q
    exact le_trans (List.length_filter_le _ _) (by simp)
  have hm2 : atMostOneTS
      ⟨[⟨1, 0, "c", "ans", 1, 0⟩], [⟨7, "adm", true⟩], [], [], 2⟩ := by
    intro u q
    exact le_trans (List.length_filter_le _ _) (by simp)
  refine ⟨?_, ?_, ?_, ?_, ?_⟩
  · exact c9_record_view_idempotent.1 _ 1 "u" 1 0 5 ⟨1, 0, "c", "ans", 1, 0⟩
      (by decide) (by decide)
  · exact c9_record_view_idempotent.2.1 _ 1 "u" 1 0 9 ⟨1, 0, "c", "ans", 1, 0⟩
      (by unfold tsHaveUser; decide) (by decide) ⟨⟨1, 1, 5⟩, by simp, rfl, rfl⟩
  · exact c9_record_view_idempotent.2.2.1 _ 1 "u" 1 0 5 hm0
  · exact c9_record_view_idempotent.2.2.2.1 (fun _ _ => true) _ 1 "u" 1 "g" 9 0 hm1
  · exact c9_record_view_idempotent.2.2.2.2 _ 7 1 "c2" "a2" 3 hm2

theorem mat_eps_iff {s : List Char} {i j : Nat} : Mat s .eps i j ↔ j = i := by
  constructor
  · intro h; cases h; rfl
  · intro h; subst h; exact Mat.eps

theorem mat_bol_iff {s : List Char} {i j : Nat} : Mat s .bol i j ↔ i = 0 ∧ j = 0 := by
  constructor
  · intro h; cases h; exact ⟨rfl, rfl⟩
  · intro ⟨h1, h2⟩; subst h1; subst h2; exact Mat.bol

theorem mat_eol_iff {s : List Char} {i j : Nat} :
    Mat s .eol i j ↔ i = s.length ∧ j = s.length := by
  constructor
  · intro h; cases h; exact ⟨rfl, rfl⟩
  · intro ⟨h1, h2⟩; subst h1; subst h2; exact Mat.eol

theorem mat_cat_iff {s : List Char} {a b : RE} {i j : Nat} :
    Mat s (.cat a b) i j ↔ ∃ k, Mat s a i k ∧ Mat s b k j := by
  constructor
  · intro h
    cases h with
    | cat h1 h2 => exact ⟨_, h1, h2⟩
  · intro ⟨k, h1, h2⟩
    exact Mat.cat h1 h2

theorem mat_alt_iff {s : List Char} {a b : RE} {i j : Nat} :
    Mat s (.alt a b) i j ↔ Mat s a i j ∨ Mat s b i j := by
  constructor
  · intro h
    cases h with
    | altL h => exact Or.inl h
    | altR h => exact Or.inr h
  · intro h
    cases h with
    | inl h => exact Mat.altL h
    | inr h => exact Mat.altR h

theorem mat_cat_eps_iff {s : List Char} {a : RE} {i j : Nat} :
    Mat s (.cat a .eps) i j ↔ Mat s a i j := by
  rw [mat_cat_iff]
  constructor
  · intro ⟨k, h1, h2⟩
    rw [mat_eps_iff] at h2
    subst h2
    exact h1
  · intro h
    exact ⟨j, h, Mat.eps⟩

theorem mat_seqCat_iff {s : List Char} (a : RE) {x : RE} {j : Nat} :
    ∀ i, Mat s (seqCat a x) i j ↔ ∃ m, Mat s a i m ∧ Mat s x m j := by
  induction a with
  | eps =>
    intro i
    show Mat s x i j ↔ _
    constructor
    · intro h; exact ⟨i, Mat.eps, h⟩
    · intro ⟨m, h1, h2⟩
      rw [mat_eps_iff] at h1
      subst h1
      exact h2
  | cat a b iha ihb =>
    intro i
    show Mat s (.cat a (seqCat b x)) i j ↔ _
    rw [mat_cat_iff]
    constructor
    · intro ⟨k, h1, h2⟩
      rw [ihb k] at h2
      obtain ⟨m, h2, h3⟩ := h2
      exact ⟨m, Mat.cat h1 h2, h3⟩
    · intro ⟨m, h1, h2⟩
      rw [mat_cat_iff] at h1
      obtain ⟨k, h1, h1'⟩ := h1
      exact ⟨k, h1, (ihb k).2 ⟨m, h1', h2⟩⟩
  | bol => intro i; exact mat_cat_iff
  | eol => intro i; exact mat_cat_iff
  | dot => intro i; exact mat_cat_iff
  | lit c => intro i; exact mat_cat_iff
  | cls items => intro i; exact mat_cat_iff
  | alt a b _ _ => intro i; exact mat_cat_iff
  | star a _ => intro i; exact mat_cat_iff
  | opt a _ => intro i; exact mat_cat_iff

theorem clsChar_nil : clsChar [] = none := rfl

theorem parseCls_nil (f : Nat) (acc : List (Char × Char)) : parseCls f [] acc = none := by
  cases f <;> rfl

theorem clsChar_append (xs ys : List Char) (c : Char) (r : List Char)
    (h : clsChar xs = some (c, r)) : clsChar (xs ++ ys) = some (c, r ++ ys) := by
  cases xs with
  | nil => simp [clsChar] at h
  | cons c0 t =>
    by_cases h1 : c0 = ']'
    · simp [clsChar, h1] at h
    · by_cases h2 : c0 = '\\'
      · subst h2
        cases t with
        | nil => simp [clsChar, h1] at h
        | cons d t2 =>
          simp [clsChar, h1] at h
          obtain ⟨rfl, rfl⟩ := h
          simp [clsChar, h1]
      · simp [clsChar, h1, h2] at h
        obtain ⟨rfl, rfl⟩ := h
        simp [clsChar, h1, h2]

theorem parseCls_append : ∀ (f f' : Nat) (xs ys : List Char) (acc : List (Char × Char))
    (re : RE) (r : List Char), f ≤ f' → parseCls f xs acc = some (re, r) →
    parseCls f' (xs ++ ys) acc = some (re, r ++ ys) := by
  intro f
  induction f with
  | zero =>
    intro f' xs ys acc re r _ h
    exact absurd h (by simp [parseCls])
  | succ f ih =>
    intro f' xs ys acc re r hf h
    obtain ⟨f2, rfl⟩ : ∃ f2, f' = f2 + 1 := ⟨f' - 1, by omega⟩
    have hf2 : f ≤ f2 := by omega
    cases xs with
    | nil => exact absurd h (by simp [parseCls])
    | cons c t =>
      by_cases h1 : c = ']'
      · subst h1
        simp only [parseCls, if_pos rfl, if_true, List.tail_cons] at h
        injection h with h
        injection h with hre hr
        subst hre; subst hr
        rw [List.cons_append]
        simp only [parseCls, if_true, List.tail_cons]
      · simp only [parseCls, if_neg h1] at h
        rw [List.cons_append]
        simp only [parseCls]
        rw [if_neg h1]
        cases hcc : clsChar (c :: t) with
        | none => rw [hcc] at h; exact absurd h (by simp)
        | some p =>
          obtain ⟨a, r1⟩ := p
          rw [hcc] at h
          have hccapp : clsChar (c :: (t ++ ys)) = some (a, r1 ++ ys) := by
            rw [← List.cons_append]
            exact clsChar_append _ _ _ _ hcc
          rw [hccapp]
          simp only at h ⊢
          cases r1 with
          | nil =>
            rw [if_neg (by simp)] at h
            rw [parseCls_nil] at h
            exact absurd h (by simp)
          | cons e r1t =>
            by_cases hdash : e = '-'
            · subst hdash
              rw [if_pos (by simp)] at h
              rw [if_pos (by simp)]
              simp only [List.cons_append, List.tail_cons] at h ⊢
              cases r1t with
              | nil =>
                rw [if_neg (by simp)] at h
                rw [clsChar_nil] at h
                exact absurd h (by simp)
              | cons e2 r1tt =>
                by_cases hbr : e2 = ']'
                · subst hbr
                  rw [if_pos (by simp)] at h
                  rw [if_pos (by simp)]
                  simp only [List.tail_cons] at h ⊢
                  injection h with h
                  injection h with hre hr
                  subst hre; subst hr
                  rfl
                · rw [if_neg (by simp [hbr])] at h
                  rw [if_neg (by simp [hbr])]
                  cases hcc2 : clsChar (e2 :: r1tt) with
                  | none => rw [hcc2] at h; exact absurd h (by simp)
                  | some p2 =>
                    obtain ⟨b, r3⟩ := p2
                    rw [hcc2] at h
                    have hcc2app : clsChar (e2 :: (r1tt ++ ys)) = some (b, r3 ++ ys) := by
                      rw [← List.cons_append]
                      exact clsChar_append _ _ _ _ hcc2
                    rw [List.cons_append]
                    simp only [hcc2app]
                    simp only at h
                    exact ih f2 r3 ys ((a, b) :: acc) re r hf2 h
            · rw [if_neg (by simp [hdash])] at h
              rw [if_neg (by simp [hdash])]
              exact ih f2 (e :: r1t) ys ((a, a) :: acc) re r hf2 h

theorem parseAtom_group (f : Nat) (t : List Char) (r : RE) (rest2 : List Char)
    (h : parseAlt f t = some (r, ')' :: rest2)) :
    parseAtom (f + 1) ('(' :: t) = some (r, rest2) := by
  simp [parseAtom, h]

theorem parseAtom_cls (f : Nat) (t : List Char) (r : RE) (rest : List Char)
    (h : parseCls f t [] = some (r, rest)) :
    parseAtom (f + 1) ('[' :: t) = some (r, rest) := by
  simp [parseAtom, h]

theorem parseAtom_esc (f : Nat) (d : Char) (t : List Char) :
    parseAtom (f + 1) ('\\' :: d :: t) = some (.lit d, t) := by
  simp [parseAtom]

theorem parseAtom_dot (f : Nat) (t : List Char) :
    parseAtom (f + 1) ('.' :: t) = some (.dot, t) := by
  simp [parseAtom]

theorem parseAtom_bol (f : Nat) (t : List Char) :
    parseAtom (f + 1) ('^' :: t) = some (.bol, t) := by
  simp [parseAtom]

theorem parseAtom_eol (f : Nat) (t : List Char) :
    parseAtom (f + 1) ('$' :: t) = some (.eol, t) := by
  simp [parseAtom]

theorem parseAtom_litDefault (f : Nat) (c : Char) (t : List Char)
    (h1 : ¬c = '(') (h2 : ¬c = '[') (h3 : ¬c = '\\') (h4 : ¬c = '.')
    (h5 : ¬c = '^') (h6 : ¬c = '$')
    (h7 : ¬(c = '*' ∨ c = '?' ∨ c = '+' ∨ c = ')' ∨ c = '|')) :
    parseAtom (f + 1) (c :: t) = some (.lit c, t) := by
  simp [parseAtom, h1, h2, h3, h4, h5, h6, h7]

theorem parseSeq_nil (f : Nat) : parseSeq (f + 1) [] = some (.eps, []) := rfl

theorem parseSeq_stop (f : Nat) (c : Char) (t : List Char) (hc : c = ')' ∨ c = '|') :
    parseSeq (f + 1) (c :: t) = some (.eps, c :: t) := by
  simp [parseSeq, hc]

theorem parseSeq_cons (f : Nat) (c : Char) (t : List Char) (r1 r2 : RE)
    (rest1 rest2 : List Char) (hc : ¬(c = ')' ∨ c = '|'))
    (ha : parseAtom f (c :: t) = some (r1, rest1))
    (hs : parseSeq f (quantStep r1 rest1).2 = some (r2, rest2)) :
    parseSeq (f + 1) (c :: t) = some (.cat (quantStep r1 rest1).1 r2, rest2) := by
  simp [parseSeq, hc, ha, hs]

theorem parseSeq_nil_inv (f : Nat) (r2 : RE) (rest2 : List Char)
    (h : parseSeq f [] = some (r2, rest2)) : r2 = .eps ∧ rest2 = [] := by
  cases f with
  | zero => exact absurd h (by simp [parseSeq])
  | succ f =>
    have h2 : (some ((RE.eps : RE), ([] : List Char)) : Option (RE × List Char)) =
        some (r2, rest2) := by rw [← h]; rfl
    injection h2 with h2
    injection h2 with ha hb
    exact ⟨ha.symm, hb.symm⟩

theorem parseSeq_head_not_quant (f : Nat) (c : Char) (t : List Char) (p : RE × List Char)
    (h : parseSeq f (c :: t) = some p) : ¬c = '*' ∧ ¬c = '?' := by
  cases f with
  | zero => exact absurd h (by simp [parseSeq])
  | succ f =>
    by_cases hc : c = ')' ∨ c = '|'
    · rcases hc with rfl | rfl <;> exact ⟨by decide, by decide⟩
    · constructor
      · intro hcc
        subst hcc
        rw [parseSeq] at h
        simp only [if_neg hc] at h
        cases f with
        | zero => exact absurd h (by simp [parseAtom])
        | succ f =>
          have hpa : parseAtom (f + 1) ('*' :: t) = none := rfl
          rw [hpa] at h
          exact absurd h (by simp)
      · intro hcc
        subst hcc
        rw [parseSeq] at h
        simp only [if_neg hc] at h
        cases f with
        | zero => exact absurd h (by simp [parseAtom])
        | succ f =>
          have hpa : parseAtom (f + 1) ('?' :: t) = none := rfl
          rw [hpa] at h
          exact absurd h (by simp)

theorem parseAlt_end (f : Nat) (xs : List Char) (r : RE)
    (h : parseSeq f xs = some (r, [])) : parseAlt (f + 1) xs = some (r, []) := by
  simp [parseAlt, h]

theorem parseAlt_other (f : Nat) (xs : List Char) (r : RE) (c : Char) (t : List Char)
    (hc : ¬c = '|') (h : parseSeq f xs = some (r, c :: t)) :
    parseAlt (f + 1) xs = some (r, c :: t) := by
  simp [parseAlt, h, hc]

theorem parseAlt_bar (f : Nat) (xs t : List Char) (r r2 : RE) (rest : List Char)
    (h1 : parseSeq f xs = some (r, '|' :: t))
    (h2 : parseAlt f t = some (r2, rest)) :
    parseAlt (f + 1) xs = some (.alt r r2, rest) := by
  simp [parseAlt, h1, h2]

theorem quantStep_append (r1 : RE) (rest1 ys : List Char)
    (hnq : rest1 = [] → ys = [] ∨ ∃ c tl, ys = c :: tl ∧ ¬c = '*' ∧ ¬c = '?') :
    (quantStep r1 (rest1 ++ ys)).1 = (quantStep r1 rest1).1 ∧
    (quantStep r1 (rest1 ++ ys)).2 = (quantStep r1 rest1).2 ++ ys := by
  cases rest1 with
  | nil =>
    rcases hnq rfl with rfl | ⟨c, tl, rfl, hns, hnm⟩
    · exact ⟨rfl, rfl⟩
    · have e1 : quantStep r1 ([] ++ c :: tl) = (r1, c :: tl) := by
        simp [quantStep, hns, hnm]
      rw [e1]
      exact ⟨rfl, rfl⟩
  | cons d t =>
    by_cases hd : d = '*'
    · subst hd
      rw [List.cons_append]
      exact ⟨rfl, rfl⟩
    · by_cases hd2 : d = '?'
      · subst hd2
        rw [List.cons_append]
        exact ⟨rfl, rfl⟩
      · rw [List.cons_append]
        have e1 : quantStep r1 (d :: (t ++ ys)) = (r1, d :: (t ++ ys)) := by
          simp [quantStep, hd, hd2]
        have e2 : quantStep r1 (d :: t) = (r1, d :: t) := by
          simp [quantStep, hd, hd2]
        rw [e1, e2]
        refine ⟨rfl, ?_⟩
        rw [List.cons_append]

theorem parse_append : ∀ f : Nat,
    (∀ (f' : Nat) (xs ys : List Char) (r : RE) (rest : List Char), f ≤ f' →
      parseAtom f xs = some (r, rest) → parseAtom f' (xs ++ ys) = some (r, rest ++ ys)) ∧
    (∀ (f' : Nat) (xs ys : List Char) (r : RE) (rest : List Char), f ≤ f' →
      parseSeq f xs = some (r, rest) →
      (rest = [] → ys = [] ∨ ∃ c tl, ys = c :: tl ∧ (c = ')' ∨ c = '|')) →
      parseSeq f' (xs ++ ys) = some (r, rest ++ ys)) ∧
    (∀ (f' : Nat) (xs ys : List Char) (r : RE) (rest : List Char), f ≤ f' →
      parseAlt f xs = some (r, rest) →
      (rest = [] → ys = [] ∨ ∃ tl, ys = ')' :: tl) →
      parseAlt f' (xs ++ ys) = some (r, rest ++ ys)) := by
  intro f
  induction f with
  | zero =>
    refine ⟨?_, ?_, ?_⟩
    · intro f' xs ys r rest _ h
      exact absurd h (by simp [parseAtom])
    · intro f' xs ys r rest _ h _
      exact absurd h (by simp [parseSeq])
    · intro f' xs ys r rest _ h _
      exact absurd h (by simp [parseAlt])
  | succ f ih =>
    obtain ⟨ihAtom, ihSeq, ihAlt⟩ := ih
    refine ⟨?_, ?_, ?_⟩
    · -- parseAtom is stable under appending any suffix
      intro f' xs ys r rest hf h
      obtain ⟨f2, rfl⟩ : ∃ f2, f' = f2 + 1 := ⟨f' - 1, by omega⟩
      have hf2 : f ≤ f2 := by omega
      cases xs with
      | nil => exact absurd h (by simp [parseAtom])
      | cons c t =>
        rw [List.cons_append]
        by_cases h1 : c = '('
        · subst h1
          have hdef : parseAtom (f + 1) ('(' :: t) =
              (match parseAlt f t with
               | none => none
               | some (ra, rest2) =>
                 match rest2 with
                 | [] => none
                 | d :: rest3 => if d = ')' then some (ra, rest3) else none) := rfl
          rw [hdef] at h
          cases hal : parseAlt f t with
          | none => rw [hal] at h; exact absurd h (by simp)
          | some p =>
            obtain ⟨ra, rest2⟩ := p
            rw [hal] at h
            simp only at h
            cases rest2 with
            | nil => exact absurd h (by simp)
            | cons d rest3 =>
              simp only at h
              by_cases hd : d = ')'
              · subst hd
                rw [if_pos rfl] at h
                injection h with h
                injection h with hre hr
                subst hre; subst hr
                have halapp : parseAlt f2 (t ++ ys) = some (ra, ')' :: (rest3 ++ ys)) := by
                  have := ihAlt f2 t ys ra (')' :: rest3) hf2 hal
                    (fun hc => absurd hc (by simp))
                  simpa [List.cons_append] using this
                exact parseAtom_group f2 (t ++ ys) ra (rest3 ++ ys) halapp
              · rw [if_neg hd] at h
                exact absurd h (by simp)
        · by_cases h2 : c = '['
          · subst h2
            have hdef : parseAtom (f + 1) ('[' :: t) = parseCls f t [] := rfl
            rw [hdef] at h
            exact parseAtom_cls f2 (t ++ ys) r (rest ++ ys)
              (parseCls_append f f2 t ys [] r rest hf2 h)
          · by_cases h3 : c = '\\'
            · subst h3
              cases t with
              | nil => exact absurd h (by simp [parseAtom])
              | cons d t2 =>
                rw [parseAtom_esc f d t2] at h
                injection h with h
                injection h with hre hr
                subst hre; subst hr
                rw [List.cons_append]
                exact parseAtom_esc f2 d (t2 ++ ys)
            · by_cases h4 : c = '.'
              · subst h4
                rw [parseAtom_dot f t] at h
                injection h with h
                injection h with hre hr
                subst hre; subst hr
                exact parseAtom_dot f2 (t ++ ys)
              · by_cases h5 : c = '^'
                · subst h5
                  rw [parseAtom_bol f t] at h
                  injection h with h
                  injection h with hre hr
                  subst hre; subst hr
                  exact parseAtom_bol f2 (t ++ ys)
                · by_cases h6 : c = '$'
                  · subst h6
                    rw [parseAtom_eol f t] at h
                    injection h with h
                    injection h with hre hr
                    subst hre; subst hr
                    exact parseAtom_eol f2 (t ++ ys)
                  · by_cases h7 : (c = '*' ∨ c = '?' ∨ c = '+' ∨ c = ')' ∨ c = '|')
                    · have hdef : parseAtom (f + 1) (c :: t) = none := by
                        simp [parseAtom, h1, h2, h3, h4, h5, h6, h7]
                      rw [hdef] at h
                      exact absurd h (by simp)
                    · rw [parseAtom_litDefault f c t h1 h2 h3 h4 h5 h6 h7] at h
                      injection h with h
                      injection h with hre hr
                      subst hre; subst hr
                      exact parseAtom_litDefault f2 c (t ++ ys) h1 h2 h3 h4 h5 h6 h7
    · -- parseSeq is stable when the suffix starts with a stop character
      intro f' xs ys r rest hf h hrest
      obtain ⟨f2, rfl⟩ : ∃ f2, f' = f2 + 1 := ⟨f' - 1, by omega⟩
      have hf2 : f ≤ f2 := by omega
      cases xs with
      | nil =>
        obtain ⟨rfl, rfl⟩ := parseSeq_nil_inv (f + 1) r rest h
        rcases hrest rfl with rfl | ⟨c, tl, rfl, hstop⟩
        · exact parseSeq_nil f2
        · simp only [List.nil_append]
          exact parseSeq_stop f2 c tl hstop
      | cons c t =>
        by_cases hstop : c = ')' ∨ c = '|'
        · rw [parseSeq_stop f c t hstop] at h
          injection h with h
          injection h with hre hr
          subst hre; subst hr
          rw [List.cons_append]
          exact parseSeq_stop f2 c (t ++ ys) hstop
        · rw [parseSeq] at h
          simp only [if_neg hstop] at h
          cases hat : parseAtom f (c :: t) with
          | none => rw [hat] at h; exact absurd h (by simp)
          | some p =>
            obtain ⟨r1, rest1⟩ := p
            rw [hat] at h
            simp only at h
            cases hsq : parseSeq f (quantStep r1 rest1).2 with
            | none => rw [hsq] at h; exact absurd h (by simp)
            | some p2 =>
              obtain ⟨r2, rest2⟩ := p2
              rw [hsq] at h
              injection h with h
              injection h with hre hr
              subst hre; subst hr
              have hnq : rest1 = [] →
                  ys = [] ∨ ∃ cc tl, ys = cc :: tl ∧ ¬cc = '*' ∧ ¬cc = '?' := by
                intro hr1
                subst hr1
                have hinv := parseSeq_nil_inv f r2 rest2 hsq
                rcases hrest hinv.2 with rfl | ⟨cc, tl, rfl, hstop2⟩
                · exact Or.inl rfl
                · refine Or.inr ⟨cc, tl, rfl, ?_, ?_⟩ <;>
                    (rcases hstop2 with rfl | rfl <;> decide)
              obtain ⟨hq1, hq2⟩ := quantStep_append r1 rest1 ys hnq
              have hatapp : parseAtom f2 (c :: (t ++ ys)) = some (r1, rest1 ++ ys) := by
                have := ihAtom f2 (c :: t) ys r1 rest1 hf2 hat
                simpa [List.cons_append] using this
              have hsqapp : parseSeq f2 ((quantStep r1 rest1).2 ++ ys) =
                  some (r2, rest2 ++ ys) :=
                ihSeq f2 (quantStep r1 rest1).2 ys r2 rest2 hf2 hsq hrest
              have hs2 : parseSeq f2 (quantStep r1 (rest1 ++ ys)).2 =
                  some (r2, rest2 ++ ys) := by
                rw [hq2]; exact hsqapp
              have hfin := parseSeq_cons f2 c (t ++ ys) r1 r2 (rest1 ++ ys) (rest2 ++ ys)
                hstop hatapp hs2
              rw [hq1] at hfin
              rw [List.cons_append]
              exact hfin
    · -- parseAlt is stable when the suffix starts with a closing parenthesis
      intro f' xs ys r rest hf h hrest
      obtain ⟨f2, rfl⟩ : ∃ f2, f' = f2 + 1 := ⟨f' - 1, by omega⟩
      have hf2 : f ≤ f2 := by omega
      rw [parseAlt] at h
      cases hsq : parseSeq f xs with
      | none => rw [hsq] at h; exact absurd h (by simp)
      | some p =>
        obtain ⟨r0, rest0⟩ := p
        rw [hsq] at h
        simp only at h
        cases rest0 with
        | nil =>
          injection h with h
          injection h with hre hr
          subst hre; subst hr
          have hys := hrest rfl
          have hseqapp : parseSeq f2 (xs ++ ys) = some (r0, ys) := by
            have hcond : ([] : List Char) = [] →
                ys = [] ∨ ∃ c tl, ys = c :: tl ∧ (c = ')' ∨ c = '|') := by
              intro _
              rcases hys with rfl | ⟨tl, rfl⟩
              · exact Or.inl rfl
              · exact Or.inr ⟨')', tl, rfl, Or.inl rfl⟩
            have := ihSeq f2 xs ys r0 [] hf2 hsq hcond
            simpa using this
          rcases hys with rfl | ⟨tl, rfl⟩
          · exact parseAlt_end f2 (xs ++ []) r0 hseqapp
          · exact parseAlt_other f2 (xs ++ (')' :: tl)) r0 ')' tl (by decide) hseqapp
        | cons c0 t0 =>
          simp only at h
          by_cases hbar : c0 = '|'
          · subst hbar
            simp only [if_true] at h
            cases hal : parseAlt f t0 with
            | none => rw [hal] at h; exact absurd h (by simp)
            | some p2 =>
              obtain ⟨r2, rest3⟩ := p2
              rw [hal] at h
              injection h with h
              injection h with hre hr
              subst hre; subst hr
              have hseqapp : parseSeq f2 (xs ++ ys) = some (r0, '|' :: (t0 ++ ys)) := by
                have := ihSeq f2 xs ys r0 ('|' :: t0) hf2 hsq
                  (fun hc => absurd hc (by simp))
                simpa [List.cons_append] using this
              have halapp : parseAlt f2 (t0 ++ ys) = some (r2, rest3 ++ ys) :=
                ihAlt f2 t0 ys r2 rest3 hf2 hal hrest
              exact parseAlt_bar f2 (xs ++ ys) (t0 ++ ys) r0 r2 (rest3 ++ ys) hseqapp halapp
          · rw [if_neg hbar] at h
            injection h with h
            injection h with hre hr
            subst hre; subst hr
            have hseqapp : parseSeq f2 (xs ++ ys) = some (r0, c0 :: (t0 ++ ys)) := by
              have := ihSeq f2 xs ys r0 (c0 :: t0) hf2 hsq
                (fun hc => absurd hc (by simp))
              simpa [List.cons_append] using this
            rw [List.cons_append]
            exact parseAlt_other f2 (xs ++ ys) r0 c0 (t0 ++ ys) hbar hseqapp

theorem parseAtom_mono (f f' : Nat) (xs : List Char) (r : RE) (rest : List Char)
    (hf : f ≤ f') (h : parseAtom f xs = some (r, rest)) :
    parseAtom f' xs = some (r, rest) := by
  have := (parse_append f).1 f' xs [] r rest hf h
  simpa using this

theorem parseSeq_mono (f f' : Nat) (xs : List Char) (r : RE) (rest : List Char)
    (hf : f ≤ f') (h : parseSeq f xs = some (r, rest)) :
    parseSeq f' xs = some (r, rest) := by
  have := (parse_append f).2.1 f' xs [] r rest hf h (fun _ => Or.inl rfl)
  simpa using this

theorem parseAlt_mono (f f' : Nat) (xs : List Char) (r : RE) (rest : List Char)
    (hf : f ≤ f') (h : parseAlt f xs = some (r, rest)) :
    parseAlt f' xs = some (r, rest) := by
  have := (parse_append f).2.2 f' xs [] r rest hf h (fun _ => Or.inl rfl)
  simpa using this

theorem parseSeq_append_full : ∀ (f1 f2 : Nat) (xs ys : List Char) (r r2 : RE)
    (rest2 : List Char),
    parseSeq f1 xs = some (r, []) →
    parseSeq f2 ys = some (r2, rest2) →
    parseSeq (f1 + f2) (xs ++ ys) = some (seqCat r r2, rest2) := by
  intro f1
  induction f1 with
  | zero =>
    intro f2 xs ys r r2 rest2 h _
    exact absurd h (by simp [parseSeq])
  | succ f ih =>
    intro f2 xs ys r r2 rest2 h hys
    cases xs with
    | nil =>
      obtain ⟨rfl, -⟩ := parseSeq_nil_inv (f + 1) r [] h
      simp only [List.nil_append, seqCat]
      exact parseSeq_mono f2 (f + 1 + f2) ys r2 rest2 (by omega) hys
    | cons c t =>
      by_cases hstop : c = ')' ∨ c = '|'
      · rw [parseSeq_stop f c t hstop] at h
        injection h with h
        injection h with _ hr
        exact absurd hr.symm (by simp)
      · rw [parseSeq] at h
        simp only [if_neg hstop] at h
        cases hat : parseAtom f (c :: t) with
        | none => rw [hat] at h; exact absurd h (by simp)
        | some p =>
          obtain ⟨r1, rest1⟩ := p
          rw [hat] at h
          simp only at h
          cases hsq : parseSeq f (quantStep r1 rest1).2 with
          | none => rw [hsq] at h; exact absurd h (by simp)
          | some p2 =>
            obtain ⟨rt, rest'⟩ := p2
            rw [hsq] at h
            injection h with h
            injection h with hre hr
            subst hre
            have hrnil : rest' = [] := hr
            subst hrnil
            have hnq : rest1 = [] →
                ys = [] ∨ ∃ cc tl, ys = cc :: tl ∧ ¬cc = '*' ∧ ¬cc = '?' := by
              intro _
              cases ys with
              | nil => exact Or.inl rfl
              | cons cc tl =>
                have hq := parseSeq_head_not_quant f2 cc tl (r2, rest2) hys
                exact Or.inr ⟨cc, tl, rfl, hq.1, hq.2⟩
            obtain ⟨hq1, hq2⟩ := quantStep_append r1 rest1 ys hnq
            have hatapp : parseAtom (f + f2) (c :: (t ++ ys)) = some (r1, rest1 ++ ys) := by
              have := parseAtom_mono f (f + f2) (c :: t) r1 rest1 (by omega) hat
              have := (parse_append (f + f2)).1 (f + f2) (c :: t) ys r1 rest1 (le_refl _) this
              simpa [List.cons_append] using this
            have hsqapp : parseSeq (f + f2) ((quantStep r1 rest1).2 ++ ys) =
                some (seqCat rt r2, rest2) :=
              ih f2 (quantStep r1 rest1).2 ys rt r2 rest2 hsq hys
            have hs2 : parseSeq (f + f2) (quantStep r1 (rest1 ++ ys)).2 =
                some (seqCat rt r2, rest2) := by
              rw [hq2]; exact hsqapp
            have hfin := parseSeq_cons (f + f2) c (t ++ ys) r1 (seqCat rt r2)
              (rest1 ++ ys) rest2 hstop hatapp hs2
            rw [hq1] at hfin
            rw [List.cons_append]
            have hfe : f + 1 + f2 = f + f2 + 1 := by omega
            rw [hfe]
            exact hfin

theorem parseAlt_exact_wrap (F : Nat) (md : List Char) (rM : RE)
    (h : parseSeq F md = some (rM, [])) :
    parseAlt (F + 5) ('^' :: (md ++ ['$'])) =
      some (.cat .bol (seqCat rM (.cat .eol .eps)), []) := by
  have hdol : parseSeq 3 ['$'] = some (.cat .eol .eps, []) := rfl
  have hseq : parseSeq (F + 3) (md ++ ['$']) = some (seqCat rM (.cat .eol .eps), []) :=
    parseSeq_append_full F 3 md ['$'] rM (.cat .eol .eps) [] h hdol
  have hquant : quantStep .bol (md ++ ['$']) = (.bol, md ++ ['$']) := by
    cases md with
    | nil => rfl
    | cons c t =>
      have hq := parseSeq_head_not_quant F c t (rM, []) h
      rw [List.cons_append]
      simp [quantStep, hq.1, hq.2]
  have hatom : parseAtom (F + 3) ('^' :: (md ++ ['$'])) = some (.bol, md ++ ['$']) :=
    parseAtom_bol (F + 2) (md ++ ['$'])
  have hs : parseSeq (F + 3) (quantStep RE.bol (md ++ ['$'])).2 =
      some (seqCat rM (.cat .eol .eps), []) := by
    rw [hquant]; exact hseq
  have hcons := parseSeq_cons (F + 3) '^' (md ++ ['$']) .bol
    (seqCat rM (.cat .eol .eps)) (md ++ ['$']) [] (by decide) hatom hs
  rw [hquant] at hcons
  exact parseAlt_end (F + 4) _ _ hcons

theorem parseAlt_partial_wrap (F : Nat) (md : List Char) (rM : RE)
    (h : parseSeq F md = some (rM, [])) :
    parseAlt (F + 5) ('.' :: '*' :: (md ++ ['.', '*'])) =
      some (.cat (.star .dot) (seqCat rM (.cat (.star .dot) .eps)), []) := by
  have hdot2 : parseSeq 3 ['.', '*'] = some (.cat (.star .dot) .eps, []) := rfl
  have hseq : parseSeq (F + 3) (md ++ ['.', '*']) =
      some (seqCat rM (.cat (.star .dot) .eps), []) :=
    parseSeq_append_full F 3 md ['.', '*'] rM (.cat (.star .dot) .eps) [] h hdot2
  have hatom : parseAtom (F + 3) ('.' :: '*' :: (md ++ ['.', '*'])) =
      some (.dot, '*' :: (md ++ ['.', '*'])) :=
    parseAtom_dot (F + 2) ('*' :: (md ++ ['.', '*']))
  have hs : parseSeq (F + 3) (quantStep RE.dot ('*' :: (md ++ ['.', '*']))).2 =
      some (seqCat rM (.cat (.star .dot) .eps), []) := hseq
  have hcons := parseSeq_cons (F + 3) '.' ('*' :: (md ++ ['.', '*'])) .dot
    (seqCat rM (.cat (.star .dot) .eps)) ('*' :: (md ++ ['.', '*'])) [] (by decide) hatom hs
  exact parseAlt_end (F + 4) _ _ hcons

theorem parseAlt_combine (F1 F2 : Nat) (q1 q2 : List Char) (r1 r2 : RE)
    (h1 : parseAlt F1 q1 = some (r1, []))
    (h2 : parseAlt F2 q2 = some (r2, [])) :
    parseAlt (F1 + F2 + 5) ('(' :: (q1 ++ (')' :: '|' :: '(' :: (q2 ++ [')'])))) =
      some (.alt (.cat r1 .eps) (.cat r2 .eps), []) := by
  have h2app : parseAlt F2 (q2 ++ [')']) = some (r2, [')']) := by
    have := (parse_append F2).2.2 F2 q2 [')'] r2 [] (le_refl _) h2
      (fun _ => Or.inr ⟨[], rfl⟩)
    simpa using this
  have hat2 : parseAtom (F2 + 1) ('(' :: (q2 ++ [')'])) = some (r2, []) :=
    parseAtom_group F2 (q2 ++ [')']) r2 [] h2app
  have hseq2 : parseSeq (F2 + 2) ('(' :: (q2 ++ [')'])) = some (.cat r2 .eps, []) := by
    have hs : parseSeq (F2 + 1) (quantStep r2 []).2 = some (.eps, []) := parseSeq_nil F2
    have := parseSeq_cons (F2 + 1) '(' (q2 ++ [')']) r2 .eps [] [] (by decide)
      (parseAtom_mono (F2 + 1) (F2 + 1) _ _ _ (le_refl _) hat2) hs
    exact this
  have halt2 : parseAlt (F2 + 3) ('(' :: (q2 ++ [')'])) = some (.cat r2 .eps, []) :=
    parseAlt_end (F2 + 2) _ _ hseq2
  have h1app : parseAlt F1 (q1 ++ (')' :: '|' :: '(' :: (q2 ++ [')']))) =
      some (r1, ')' :: ('|' :: '(' :: (q2 ++ [')']))) := by
    have := (parse_append F1).2.2 F1 q1 (')' :: '|' :: '(' :: (q2 ++ [')'])) r1 []
      (le_refl _) h1 (fun _ => Or.inr ⟨_, rfl⟩)
    simpa using this
  have hat1 : parseAtom (F1 + 1) ('(' :: (q1 ++ (')' :: '|' :: '(' :: (q2 ++ [')'])))) =
      some (r1, '|' :: '(' :: (q2 ++ [')'])) :=
    parseAtom_group F1 _ r1 _ h1app
  have hseq1 : parseSeq (F1 + 2) ('(' :: (q1 ++ (')' :: '|' :: '(' :: (q2 ++ [')'])))) =
      some (.cat r1 .eps, '|' :: '(' :: (q2 ++ [')'])) := by
    have hs : parseSeq (F1 + 1) (quantStep r1 ('|' :: '(' :: (q2 ++ [')']))).2 =
        some (.eps, '|' :: '(' :: (q2 ++ [')'])) :=
      parseSeq_stop F1 '|' ('(' :: (q2 ++ [')'])) (Or.inr rfl)
    have := parseSeq_cons (F1 + 1) '(' (q1 ++ (')' :: '|' :: '(' :: (q2 ++ [')'])))
      r1 .eps ('|' :: '(' :: (q2 ++ [')']))
      ('|' :: '(' :: (q2 ++ [')'])) (by decide) hat1 hs
    exact this
  have hseq1' := parseSeq_mono (F1 + 2) (F1 + F2 + 4) _ _ _ (by omega) hseq1
  have halt2' := parseAlt_mono (F2 + 3) (F1 + F2 + 4) _ _ _ (by omega) halt2
  have := parseAlt_bar (F1 + F2 + 4) _ ('(' :: (q2 ++ [')'])) (.cat r1 .eps)
    (.cat r2 .eps) [] hseq1' halt2'
  exact this

theorem parseFull_inv (p : String) (r : RE) (h : parseFull p = some r) :
    parseAlt (3 * p.data.length + 3) p.data = some (r, []) := by
  unfold parseFull at h
  cases hal : parseAlt (3 * p.data.length + 3) p.data with
  | none => rw [hal] at h; exact absurd h (by simp)
  | some q =>
    obtain ⟨r0, rest0⟩ := q
    rw [hal] at h
    cases rest0 with
    | nil =>
      simp only at h
      injection h with h
      rw [← h]
    | cons c t => exact absurd h (by simp)

theorem parseFull_exact (m : String) (rM : RE)
    (h : parseSeq (3 * m.data.length + 3) m.data = some (rM, [])) :
    parseFull ("^" ++ m ++ "$") = some (.cat .bol (seqCat rM (.cat .eol .eps))) := by
  have hdata : ("^" ++ m ++ "$").data = '^' :: (m.data ++ ['$']) := by
    rw [String.data_append, String.data_append]
    rfl
  unfold parseFull
  rw [hdata]
  have hwrap := parseAlt_exact_wrap (3 * m.data.length + 3) m.data rM h
  have hlift := parseAlt_mono (3 * m.data.length + 3 + 5)
    (3 * ('^' :: (m.data ++ ['$'])).length + 3) _ _ _ (by simp; omega) hwrap
  rw [hlift]

theorem parseFull_partial (m : String) (rM : RE)
    (h : parseSeq (3 * m.data.length + 3) m.data = some (rM, [])) :
    parseFull (".*" ++ m ++ ".*") =
      some (.cat (.star .dot) (seqCat rM (.cat (.star .dot) .eps))) := by
  have hdata : (".*" ++ m ++ ".*").data = '.' :: '*' :: (m.data ++ ['.', '*']) := by
    rw [String.data_append, String.data_append]
    rfl
  unfold parseFull
  rw [hdata]
  have hwrap := parseAlt_partial_wrap (3 * m.data.length + 3) m.data rM h
  have hlift := parseAlt_mono (3 * m.data.length + 3 + 5)
    (3 * ('.' :: '*' :: (m.data ++ ['.', '*'])).length + 3) _ _ _ (by simp; omega) hwrap
  rw [hlift]

theorem parseFull_combine (p1 p2 : String) (r1 r2 : RE)
    (h1 : parseFull p1 = some r1) (h2 : parseFull p2 = some r2) :
    parseFull ("(" ++ p1 ++ ")|(" ++ p2 ++ ")") =
      some (.alt (.cat r1 .eps) (.cat r2 .eps)) := by
  have hdata : ("(" ++ p1 ++ ")|(" ++ p2 ++ ")").data =
      '(' :: (p1.data ++ (')' :: '|' :: '(' :: (p2.data ++ [')']))) := by
    rw [String.data_append, String.data_append, String.data_append, String.data_append]
    show ('(' :: p1.data) ++ (')' :: '|' :: '(' :: []) ++ p2.data ++ (')' :: []) = _
    simp
  unfold parseFull
  rw [hdata]
  have hc := parseAlt_combine (3 * p1.data.length + 3) (3 * p2.data.length + 3)
    p1.data p2.data r1 r2 (parseFull_inv p1 r1 h1) (parseFull_inv p2 r2 h2)
  have hlift := parseAlt_mono
    (3 * p1.data.length + 3 + (3 * p2.data.length + 3) + 5)
    (3 * ('(' :: (p1.data ++ (')' :: '|' :: '(' :: (p2.data ++ [')'])))).length + 3)
    _ _ _ (by simp; omega) hc
  rw [hlift]

theorem replace2_cons2_pos (p1 p2 r : Char) (l : List Char) :
    replace2 p1 p2 r (p1 :: p2 :: l) = r :: replace2 p1 p2 r l := by
  simp [replace2]

theorem replace2_cons2_neg (p1 p2 r c1 c2 : Char) (l : List Char)
    (h : ¬(c1 = p1 ∧ c2 = p2)) :
    replace2 p1 p2 r (c1 :: c2 :: l) = c1 :: replace2 p1 p2 r (c2 :: l) := by
  simp only [replace2, if_neg h]

theorem replace2_cons_of_ne (p1 p2 r c : Char) (l : List Char)
    (h : ¬(c = p1 ∧ l.head? = some p2)) :
    replace2 p1 p2 r (c :: l) = c :: replace2 p1 p2 r l := by
  cases l with
  | nil => rfl
  | cons h2 t =>
    have hcond : ¬(c = p1 ∧ h2 = p2) := fun hc => h ⟨hc.1, by rw [hc.2]; rfl⟩
    exact replace2_cons2_neg p1 p2 r c h2 t hcond

theorem reEscape_head_ne_space (l : List Char) (h : Char)
    (hh : (reEscape l).head? = some h) : h ≠ ' ' := by
  cases l with
  | nil => exact absurd hh (by simp [reEscape, escMap])
  | cons c t =>
    by_cases hs : reSpecial c = true
    · have : reEscape (c :: t) = '\\' :: c :: reEscape t := by
        simp [reEscape, escMap, hs]
      rw [this] at hh
      injection hh with hh
      rw [← hh]
      decide
    · have : reEscape (c :: t) = c :: reEscape t := by
        simp [reEscape, escMap, hs]
      rw [this] at hh
      injection hh with hh
      subst hh
      intro hc
      subst hc
      exact hs rfl

theorem esc1_head_ne_star (l : List Char) (h : Char)
    (hh : (escMap esc1 l).head? = some h) : h ≠ '*' := by
  cases l with
  | nil => exact absurd hh (by simp [escMap])
  | cons c t =>
    by_cases hsp : c = ' '
    · subst hsp
      have : escMap esc1 (' ' :: t) = ' ' :: escMap esc1 t := rfl
      rw [this] at hh
      injection hh with hh
      rw [← hh]; decide
    · by_cases hs : reSpecial c = true
      · have : escMap esc1 (c :: t) = '\\' :: c :: escMap esc1 t := by
          simp [escMap, esc1, hsp, hs]
        rw [this] at hh
        injection hh with hh
        rw [← hh]; decide
      · have : escMap esc1 (c :: t) = c :: escMap esc1 t := by
          simp [escMap, esc1, hsp, hs]
        rw [this] at hh
        injection hh with hh
        subst hh
        intro hc
        subst hc
        exact hs rfl

theorem replace2_space_reEscape (l : List Char) :
    replace2 '\\' ' ' ' ' (reEscape l) = escMap esc1 l := by
  induction l with
  | nil => rfl
  | cons c t ih =>
    by_cases hsp : c = ' '
    · subst hsp
      have h1 : reEscape (' ' :: t) = '\\' :: ' ' :: reEscape t := rfl
      have h2 : escMap esc1 (' ' :: t) = ' ' :: escMap esc1 t := rfl
      rw [h1, h2, replace2_cons2_pos, ih]
    · by_cases hs : reSpecial c = true
      · have h1 : reEscape (c :: t) = '\\' :: c :: reEscape t := by
          simp [reEscape, escMap, hs]
        have h2 : escMap esc1 (c :: t) = '\\' :: c :: escMap esc1 t := by
          simp [escMap, esc1, hsp, hs]
        rw [h1, h2, replace2_cons2_neg '\\' ' ' ' ' '\\' c (reEscape t)
          (fun hc => hsp hc.2)]
        rw [replace2_cons_of_ne '\\' ' ' ' ' c (reEscape t)
          (fun hc => reEscape_head_ne_space t ' ' hc.2 rfl), ih]
      · have h1 : reEscape (c :: t) = c :: reEscape t := by
          simp [reEscape, escMap, hs]
        have h2 : escMap esc1 (c :: t) = c :: escMap esc1 t := by
          simp [escMap, esc1, hsp, hs]
        rw [h1, h2]
        have hcb : c ≠ '\\' := by
          intro hc; subst hc; exact hs rfl
        rw [replace2_cons_of_ne '\\' ' ' ' ' c (reEscape t) (fun hc => hcb hc.1), ih]

theorem replace2_star_esc1 (l : List Char) :
    replace2 '\\' '*' '*' (escMap esc1 l) = escMap escChar l := by
  induction l with
  | nil => rfl
  | cons c t ih =>
    by_cases hsp : c = ' '
    · subst hsp
      have h1 : escMap esc1 (' ' :: t) = ' ' :: escMap esc1 t := rfl
      have h2 : escMap escChar (' ' :: t) = ' ' :: escMap escChar t := rfl
      rw [h1, h2]
      rw [replace2_cons_of_ne '\\' '*' '*' ' ' (escMap esc1 t) (fun hc => by
        exact absurd hc.1 (by decide)), ih]
    · by_cases hst : c = '*'
      · subst hst
        have h1 : escMap esc1 ('*' :: t) = '\\' :: '*' :: escMap esc1 t := rfl
        have h2 : escMap escChar ('*' :: t) = '*' :: escMap escChar t := rfl
        rw [h1, h2, replace2_cons2_pos, ih]
      · by_cases hs : reSpecial c = true
        · have h1 : escMap esc1 (c :: t) = '\\' :: c :: escMap esc1 t := by
            simp [escMap, esc1, hsp, hs]
          have h2 : escMap escChar (c :: t) = '\\' :: c :: escMap escChar t := by
            simp [escMap, escChar, hsp, hst, hs]
          rw [h1, h2, replace2_cons2_neg '\\' '*' '*' '\\' c (escMap esc1 t)
            (fun hc => hst hc.2)]
          rw [replace2_cons_of_ne '\\' '*' '*' c (escMap esc1 t)
            (fun hc => esc1_head_ne_star t '*' hc.2 rfl), ih]
        · have h1 : escMap esc1 (c :: t) = c :: escMap esc1 t := by
            simp [escMap, esc1, hsp, hs]
          have h2 : escMap escChar (c :: t) = c :: escMap escChar t := by
            simp [escMap, escChar, hsp, hst, hs]
          rw [h1, h2]
          have hcb : c ≠ '\\' := by
            intro hc; subst hc; exact hs rfl
          rw [replace2_cons_of_ne '\\' '*' '*' c (escMap esc1 t) (fun hc => hcb hc.1), ih]

/-- C8: the escaping step of the compiler acts character by character: every
special character of the pattern language is escaped with a backslash,
except that a literal space stays a plain space and a literal star stays a
plain, unescaped star — both restored to raw form after the escape. -/
theorem c8_escape_keeps_space_and_star :
    (∀ x : String, escape_and_replace x = ⟨escMap escChar x.data⟩) ∧
    escChar ' ' = [' '] ∧
    escChar '*' = ['*'] ∧
    (∀ c : Char, reSpecial c = true → c ≠ ' ' → c ≠ '*' → escChar c = ['\\', c]) ∧
    (∀ c : Char, reSpecial c = false → escChar c = [c]) := by
  refine ⟨?_, rfl, rfl, ?_, ?_⟩
  · intro x
    unfold escape_and_replace
    rw [replace2_space_reEscape, replace2_star_esc1]
  · intro c hs hsp hst
    simp [escChar, hsp, hst, hs]
  · intro c hs
    have hsp : c ≠ ' ' := by intro h; subst h; exact absurd hs (by decide)
    have hst : c ≠ '*' := by intro h; subst h; exact absurd hs (by decide)
    simp [escChar, hsp, hst, hs]

/-- Witness for C8, applying its parts at concrete characters and at the
input `"a *("`: the space and the star come out raw, the parenthesis
escaped. -/
theorem c8_escape_keeps_space_and_star_witness :
    escape_and_replace "a *(" = ⟨escMap escChar "a *(".data⟩ ∧
    escChar '(' = ['\\', '('] ∧
    escChar 'q' = ['q'] := by
  refine ⟨c8_escape_keeps_space_and_star.1 "a *(", ?_, ?_⟩
  · exact c8_escape_keeps_space_and_star.2.2.2.1 '(' (by decide) (by decide) (by decide)
  · exact c8_escape_keeps_space_and_star.2.2.2.2 'q' (by decide)

/-- C7: compiling with `partial_match=True` wraps the rewritten core between
unanchored wildcards, so the pattern matches a canonical answer exactly when
some span of it matches the core; compiling with `partial_match=False`
anchors the core, so the pattern matches exactly when the whole canonical
answer matches the core; and the answer-checking path of `anwswer_quiz`
always compiles the guess with the non-partial form. -/
theorem c7_partial_vs_exact :
    (∀ (x s : String) (rM : RE),
      parseSeq (3 * (apply_regex_rules (escape_and_replace (pyLower x))).data.length + 3)
          (apply_regex_rules (escape_and_replace (pyLower x))).data = some (rM, []) →
      (SearchStr (generate_regex_pattern x true) s ↔ ∃ i j, Mat s.data rM i j) ∧
      (SearchStr (generate_regex_pattern x false) s ↔ Mat s.data rM 0 s.data.length)) ∧
    (∀ (f : String → String → Bool) (st : DBState) (uid : Nat) (un : String)
       (qt : Nat) (g : String) (now d : Int) (quiz : Quiz) (ts : UserStartQuizTimestamp),
      findQuiz st qt d = some quiz →
      userAnswers st uid = [] →
      (st.startTimestamps.filter
        (fun t => t.user_id == uid && t.quiz_id == quiz.id)).head? = some ts →
      (anwswer_quiz f st uid un qt g now d).1 =
        (if f (process_user_input g false true) quiz.answer then .correctFeedback
         else .incorrectFeedback)) := by
  constructor
  · intro x s rM h
    have hPartFull := parseFull_partial (apply_regex_rules (escape_and_replace (pyLower x))) rM h
    have hexact := parseFull_exact (apply_regex_rules (escape_and_replace (pyLower x))) rM h
    have hgenT : generate_regex_pattern x true =
        ".*" ++ apply_regex_rules (escape_and_replace (pyLower x)) ++ ".*" := rfl
    have hgenF : generate_regex_pattern x false =
        "^" ++ apply_regex_rules (escape_and_replace (pyLower x)) ++ "$" := rfl
    constructor
    · rw [hgenT]
      unfold SearchStr
      constructor
      · rintro ⟨r, hr, i, j, hm⟩
        rw [hPartFull] at hr
        injection hr with hr
        subst hr
        rw [mat_cat_iff] at hm
        obtain ⟨k, -, hm⟩ := hm
        rw [mat_seqCat_iff] at hm
        obtain ⟨mm, hm1, -⟩ := hm
        exact ⟨k, mm, hm1⟩
      · rintro ⟨i, j, hm⟩
        refine ⟨_, hPartFull, i, j, Mat.cat Mat.starZ ?_⟩
        rw [mat_seqCat_iff]
        exact ⟨j, hm, Mat.cat Mat.starZ Mat.eps⟩
    · rw [hgenF]
      unfold SearchStr
      constructor
      · rintro ⟨r, hr, i, j, hm⟩
        rw [hexact] at hr
        injection hr with hr
        subst hr
        rw [mat_cat_iff] at hm
        obtain ⟨k, hbol, hm⟩ := hm
        rw [mat_bol_iff] at hbol
        obtain ⟨rfl, rfl⟩ := hbol
        rw [mat_seqCat_iff] at hm
        obtain ⟨mm, hm1, hm2⟩ := hm
        rw [mat_cat_iff] at hm2
        obtain ⟨k2, heol, -⟩ := hm2
        rw [mat_eol_iff] at heol
        obtain ⟨rfl, -⟩ := heol
        exact hm1
      · intro hm
        refine ⟨_, hexact, 0, s.data.length, Mat.cat Mat.bol ?_⟩
        rw [mat_seqCat_iff]
        exact ⟨s.data.length, hm, Mat.cat Mat.eol Mat.eps⟩
  · intro f st uid un qt g now d quiz ts hq he hts
    have he' : userAnswers (get_user_from_id st uid un).1 uid = [] := by
      rw [userAnswers_gufi]; exact he
    have hts' : ((get_user_from_id st uid un).1.startTimestamps.filter
        (fun t => t.user_id == uid && t.quiz_id == quiz.id)).head? = some ts := by
      rw [gufi_ts]; exact hts
    rw [submit_matched f st uid un qt g now d quiz ts hq he' hts']
    by_cases hf : f (process_user_input g false true) quiz.answer
    · rw [if_pos hf, if_pos hf]
    · rw [if_neg hf, if_neg hf]

/-- Witness for C7, applying both parts at concrete inputs: the guess `"q"`
against canonical answer `"q"`, and a concrete submission state. -/
theorem c7_partial_vs_exact_witness :
    ((SearchStr (generate_regex_pattern "q" true) "q" ↔
        ∃ i j, Mat "q".data (.cat (.lit 'q') .eps) i j) ∧
      (SearchStr (generate_regex_pattern "q" false) "q" ↔
        Mat "q".data (.cat (.lit 'q') .eps) 0 "q".data.length)) ∧
    ((anwswer_quiz (fun _ _ => true)
        ⟨[⟨1, 0, "c", "ans", 1, 0⟩], [⟨1, "u", false⟩], [], [⟨1, 1, 0⟩], 2⟩
        1 "u" 1 "guess" 9 0).1 =
      (if (fun _ _ => true) (process_user_input "guess" false true) "ans" then
        SubmitOutcome.correctFeedback
       else SubmitOutcome.incorrectFeedback)) := by
  constructor
  · exact c7_partial_vs_exact.1 "q" "q" (.cat (.lit 'q') .eps) (by decide)
  · exact c7_partial_vs_exact.2 (fun _ _ => true) _ 1 "u" 1 "guess" 9 0
      ⟨1, 0, "c", "ans", 1, 0⟩ ⟨1, 1, 0⟩ (by decide) (by decide) (by decide)

/-- C6: when the raw input splits into exactly two space-separated fields,
the compiled pattern matches a canonical answer exactly when the compiled
original or the compiled token-reversed input matches; for every other
input the function returns the compiled original unchanged. -/
theorem c6_word_swap :
    (∀ (raw s : String) (pm : Bool),
      (splitSp raw.data).length = 2 →
      (parseFull (generate_regex_pattern raw pm)).isSome = true →
      (parseFull (generate_regex_pattern (swappedInput raw) pm)).isSome = true →
      (SearchStr (process_user_input raw pm true) s ↔
        SearchStr (generate_regex_pattern raw pm) s ∨
        SearchStr (generate_regex_pattern (swappedInput raw) pm) s)) ∧
    (∀ (raw : String) (pm : Bool),
      (splitSp raw.data).length ≠ 2 →
      process_user_input raw pm true = generate_regex_pattern raw pm) := by
  constructor
  · intro raw s pm htok h1 h2
    obtain ⟨r1, hr1⟩ := Option.isSome_iff_exists.1 h1
    obtain ⟨r2, hr2⟩ := Option.isSome_iff_exists.1 h2
    have hcomb : process_user_input raw pm true =
        "(" ++ generate_regex_pattern raw pm ++ ")|(" ++
          generate_regex_pattern (swappedInput raw) pm ++ ")" := by
      simp [process_user_input, htok]
    rw [hcomb]
    have hpf := parseFull_combine (generate_regex_pattern raw pm)
      (generate_regex_pattern (swappedInput raw) pm) r1 r2 hr1 hr2
    unfold SearchStr
    constructor
    · rintro ⟨r, hr, i, j, hm⟩
      rw [hpf] at hr
      injection hr with hr
      subst hr
      rw [mat_alt_iff] at hm
      cases hm with
      | inl hm =>
        rw [mat_cat_eps_iff] at hm
        exact Or.inl ⟨r1, hr1, i, j, hm⟩
      | inr hm =>
        rw [mat_cat_eps_iff] at hm
        exact Or.inr ⟨r2, hr2, i, j, hm⟩
    · intro hm
      cases hm with
      | inl hm =>
        obtain ⟨r1', hr1', i, j, hmm⟩ := hm
        rw [hr1] at hr1'
        injection hr1' with hr1'
        subst hr1'
        exact ⟨_, hpf, i, j, Mat.altL (mat_cat_eps_iff.2 hmm)⟩
      | inr hm =>
        obtain ⟨r2', hr2', i, j, hmm⟩ := hm
        rw [hr2] at hr2'
        injection hr2' with hr2'
        subst hr2'
        exact ⟨_, hpf, i, j, Mat.altR (mat_cat_eps_iff.2 hmm)⟩
  · intro raw pm h
    simp [process_user_input, h]

/-- Witness for C6, applying both parts at concrete inputs: the two-token
guess `"q w"` and the three-field input `"A  B"`. -/
theorem c6_word_swap_witness :
    (SearchStr (process_user_input "q w" false true) "x" ↔
      SearchStr (generate_regex_pattern "q w" false) "x" ∨
      SearchStr (generate_regex_pattern (swappedInput "q w") false) "x") ∧
    process_user_input "A  B" true true = generate_regex_pattern "A  B" true := by
  constructor
  · exact c6_word_swap.1 "q w" "x" false (by decide) (by decide) (by decide)
  · exact c6_word_swap.2 "A  B" true (by decide)

/-- C1 is violated by the code: `for answer in user.answers` shadows the
`answer` parameter of `anwswer_quiz`, so as soon as the user has any prior
recorded answer the submission neither records nor matches the submitted
guess text; the command aborts with an `AttributeError` inside
`process_user_input` and appends nothing.  This theorem evaluates the
embedded command at such a failing input: a user with one prior incorrect
attempt who submits the correct answer text. -/
theorem c1_prior_attempt_shadows_guess :
    anwswer_quiz (fun _ _ => true)
      ⟨[⟨1, 0, "clip", "Saori Hayami", 1, 0⟩], [⟨1, "u", false⟩],
        [⟨1, 1, "saori", 5, false⟩], [⟨1, 1, 0⟩], 2⟩
      1 "u" 1 "Saori Hayami" 10 0 =
    (.shadowedGuessAttrError,
      ⟨[⟨1, 0, "clip", "Saori Hayami", 1, 0⟩], [⟨1, "u", false⟩],
        [⟨1, 1, "saori", 5, false⟩], [⟨1, 1, 0⟩], 2⟩) := by
  rfl

/-- C2 is violated by the code: when no quiz exists for the requested type
and date, `anwswer_quiz` sends the "no quiz today" message but, lacking a
`return`, falls through and raises `AttributeError` dereferencing
`quiz.id`, instead of returning the absent result without an exception.
This theorem evaluates the embedded command at such a failing input. -/
theorem c2_missing_return_after_no_quiz :
    anwswer_quiz (fun _ _ => true) ⟨[], [⟨1, "u", false⟩], [], [], 0⟩ 1 "u" 1 "guess" 10 0 =
      (.noQuizMsgThenAttrError, ⟨[], [⟨1, "u", false⟩], [], [], 0⟩) := by
  rfl

end Poyuta
